import Mathlib

/-!
Verification of the lowire agent-loop runtime.

This file gives a shallow embedding of the core of the lowire repository:
the turn scheduler (`Loop.run` in the current loop module), the tool-schema
wrapper `wrapToolWithIsDone`, the conversation summarizer of the packaged
loop, the Google / OpenAI provider adapters' error paths and stop-reason
mapping, `fetchWithTimeout`, and the replay-cache fingerprint.

Conventions:
* JavaScript objects are modelled as insertion-ordered association lists
  (`List (String × Json)`); object spread `\x7b...o, k: v\x7d` keeps the
  position of an existing key while replacing its value (`Json.objSet`).
* JS truthiness is modelled by `Json.truthy`.
* Machine numbers in the scheduler's budgets are modelled as `Int`
  (JavaScript numbers behave as exact integers in the ranges used here).
* Asynchronous callbacks (provider completion, `callTool`, event hooks)
  are modelled as pure oracles indexed by turn and call position; the
  embedding covers runs in which no `abortController` is supplied, so
  every `abortController?.signal.aborted` check is `false`.
-/

/-- A JSON value; objects are insertion-ordered association lists, matching
the enumeration order of JavaScript object properties. -/
inductive Json where
  | null : Json
  | bool (b : Bool) : Json
  | num (n : Int) : Json
  | str (s : String) : Json
  | arr (elems : List Json) : Json
  | obj (fields : List (String × Json)) : Json

namespace Json

/-- Lookup of a key in an object field list (first occurrence, like JS). -/
def objLookup (fields : List (String × Json)) (k : String) : Option Json :=
  match fields with
  | [] => none
  | (k', v) :: rest => if k' = k then some v else objLookup rest k

/-- JS object spread update `\x7b...o, k: v\x7d`: if `k` is present its value is
replaced in place (keeping its position); otherwise `(k, v)` is appended. -/
def objSet (fields : List (String × Json)) (k : String) (v : Json) :
    List (String × Json) :=
  if fields.any (fun p => p.1 = k) then
    fields.map (fun p => if p.1 = k then (k, v) else p)
  else
    fields ++ [(k, v)]

/-- JavaScript truthiness of a JSON value. -/
def truthy : Json → Bool
  | .null => false
  | .bool b => b
  | .num n => n ≠ 0
  | .str s => s ≠ ""
  | .arr _ => true
  | .obj _ => true

/-- JavaScript truthiness of an optional (possibly absent) value. -/
def truthyOpt : Option Json → Bool
  | none => false
  | some j => truthy j

end Json

/-- JSON string escaping as performed by `JSON.stringify` (quote, backslash,
the named control escapes, and `\u00XX` for other control characters). -/
def jsonEscapeChar (c : Char) : String :=
  if c = '"' then "\\\""
  else if c = '\\' then "\\\\"
  else if c = Char.ofNat 8 then "\\b"
  else if c = Char.ofNat 12 then "\\f"
  else if c = '\n' then "\\n"
  else if c = Char.ofNat 13 then "\\r"
  else if c = Char.ofNat 9 then "\\t"
  else if c.toNat < 32 then
    "\\u00" ++ String.mk [hexDigit (c.toNat / 16), hexDigit (c.toNat % 16)]
  else String.singleton c
where
  hexDigit (n : Nat) : Char :=
    if n < 10 then Char.ofNat (48 + n) else Char.ofNat (87 + n)

/-- Serialization of a JSON string literal, double quoted and escaped. -/
def jsonRenderString (s : String) : String :=
  "\"" ++ String.join (s.data.map jsonEscapeChar) ++ "\""

/-- The left brace character, kept out of string literals. -/
def lbrace : String := String.singleton (Char.ofNat 123)

/-- The right brace character, kept out of string literals. -/
def rbrace : String := String.singleton (Char.ofNat 125)

mutual

/-- Compact serialization of a JSON value, as `JSON.stringify` produces for
values free of `undefined`: no whitespace, object fields in insertion
order. -/
def Json.render : Json → String
  | .null => "null"
  | .bool true => "true"
  | .bool false => "false"
  | .num n => toString n
  | .str s => jsonRenderString s
  | .arr l => "[" ++ Json.renderList l ++ "]"
  | .obj f => lbrace ++ Json.renderFields f ++ rbrace

/-- Comma-separated serialization of array elements. -/
def Json.renderList : List Json → String
  | [] => ""
  | [j] => Json.render j
  | j :: rest => Json.render j ++ "," ++ Json.renderList rest

/-- Comma-separated serialization of object fields. -/
def Json.renderFields : List (String × Json) → String
  | [] => ""
  | [(k, v)] => jsonRenderString k ++ ":" ++ Json.render v
  | (k, v) :: rest =>
    jsonRenderString k ++ ":" ++ Json.render v ++ "," ++ Json.renderFields rest

end

/-- Rendering of `Option Nat` the way a JS template literal renders a
possibly-undefined number (`undefined` when absent). -/
def optNatToString : Option Nat → String
  | some n => toString n
  | none => "undefined"

/-- Rendering of `Option Int` the way a JS template literal renders a
possibly-undefined number. -/
def optIntToString : Option Int → String
  | some i => toString i
  | none => "undefined"

namespace Lowire

/-- Token usage counters of one completion (`types.Usage`). -/
structure Usage where
  input : Nat
  output : Nat
deriving DecidableEq

/-- One part of a tool result's `content` (text or base64 image). -/
inductive ResultPart where
  | text (text : String)
  | image (mimeType data : String)
deriving DecidableEq

/-- One `_meta["dev.lowire/history"]` entry of a tool result. -/
structure MetaItem where
  category : String
  content : String
deriving DecidableEq

/-- The `_meta` payload of a `ToolResult`; empty lists model an absent
`_meta`.  `state` is the `"dev.lowire/state"` mapping, `history` the
`"dev.lowire/history"` list. -/
structure ToolResultMeta where
  history : List MetaItem := []
  state : List (String × String) := []
deriving DecidableEq

/-- A tool invocation result (`ToolResult`).  `isError := false` covers both
an absent and an explicitly false `isError` flag (both are falsy in the
scheduler's checks). -/
structure ToolResult where
  content : List ResultPart
  isError : Bool := false
  meta : ToolResultMeta := {}
deriving DecidableEq

/-- A content part of an assistant message in the current loop generation:
text, or a tool call carrying its JSON arguments and, once dispatched, its
result. -/
inductive ContentPart where
  | text (text : String)
  | tool_call (id name : String) (arguments : List (String × Json))
      (result : Option ToolResult)

/-- Stop-reason codes of an assistant message. -/
inductive StopCode where
  | ok
  | max_tokens
  | error
deriving DecidableEq

/-- A stop reason `\x7bcode, message?\x7d`. -/
structure StopReason where
  code : StopCode
  message : Option String := none

/-- An assistant message as consumed by the current `Loop.run`: the loop
reads `stopReason.code` unconditionally, so `stopReason` is a required
field here. -/
structure AssistantMessage where
  content : List ContentPart
  stopReason : StopReason
  toolError : Option String := none

/-- A conversation message (`user` or `assistant`). -/
inductive Message where
  | user (content : String)
  | assistant (m : AssistantMessage)

/-- A tool descriptor; `inputSchema` is an arbitrary JSON-schema object. -/
structure Tool where
  name : String
  description : String
  inputSchema : Json

/-- A conversation as assembled by `Loop.run`. -/
structure Conversation where
  systemPrompt : String
  messages : List Message
  tools : List Tool

/-- The `_is_done` property schema inserted by `wrapToolWithIsDone`. -/
def isDoneSchema : Json :=
  .obj [("type", .str "boolean"),
        ("description", .str "Whether the task is complete. If false, agentic loop will continue to perform the task.")]

/-- The fields of a JSON object; non-objects contribute no fields, matching
the empty spread of a JS primitive. -/
def objFields : Json → List (String × Json)
  | .obj f => f
  | _ => []

/-- The element list behind `[...(x || [])]` for a schema's `required`
field: an absent or non-array value contributes no elements. -/
def requiredElems (j : Option Json) : List Json :=
  match j with
  | some (.arr l) => l
  | _ => []

/-- `wrapToolWithIsDone` from the loop module: shallow-copies the tool and
its `inputSchema`, sets `properties._is_done` to `isDoneSchema` and appends
`"_is_done"` to `required` (creating it from `[]` when absent). -/
def wrapToolWithIsDone (tool : Tool) : Tool :=
  let fields := objFields tool.inputSchema
  let propFields := objFields ((Json.objLookup fields "properties").getD (.obj []))
  let fields2 := Json.objSet fields "properties"
    (.obj (Json.objSet propFields "_is_done" isDoneSchema))
  let fields3 := Json.objSet fields2 "required"
    (.arr (requiredElems (Json.objLookup fields "required") ++ [.str "_is_done"]))
  { tool with inputSchema := .obj fields3 }

/-- The constant system prompt of the current loop module. -/
def loopSystemPrompt : String :=
  "\n- You are an autonomous agent designed to complete tasks by interacting with tools.\n- Perform the user task.\n- If you see text surrounded by %, it is a secret and you should preserve it as such. It will be replaced with the actual value before the tool call.\n"

/-- JSON encoding of a tool-result content part. -/
def ResultPart.toJson : ResultPart → Json
  | .text t => .obj [("type", .str "text"), ("text", .str t)]
  | .image m d => .obj [("type", .str "image"), ("mimeType", .str m), ("data", .str d)]

/-- JSON encoding of a `ToolResult`; `isError` appears only when true and
`_meta` only when non-empty, matching `JSON.stringify` dropping absent
optional fields. -/
def ToolResult.toJson (r : ToolResult) : Json :=
  .obj ([("content", .arr (r.content.map ResultPart.toJson))]
    ++ (if r.isError then [("isError", .bool true)] else [])
    ++ (if r.meta.history.isEmpty && r.meta.state.isEmpty then []
        else [("_meta", .obj
          [("dev.lowire/history", .arr (r.meta.history.map fun i =>
             .obj [("category", .str i.category), ("content", .str i.content)])),
           ("dev.lowire/state", .obj (r.meta.state.map fun p => (p.1, .str p.2)))])]))

/-- JSON encoding of a content part. -/
def ContentPart.toJson : ContentPart → Json
  | .text t => .obj [("type", .str "text"), ("text", .str t)]
  | .tool_call id name args result =>
    .obj ([("type", .str "tool_call"), ("id", .str id), ("name", .str name),
           ("arguments", .obj args)]
      ++ (match result with
          | some r => [("result", r.toJson)]
          | none => []))

/-- Wire name of a stop code. -/
def StopCode.toWire : StopCode → String
  | .ok => "ok"
  | .max_tokens => "max_tokens"
  | .error => "error"

/-- JSON encoding of an assistant message. -/
def AssistantMessage.toJson (m : AssistantMessage) : Json :=
  .obj ([("role", .str "assistant"),
         ("content", .arr (m.content.map ContentPart.toJson)),
         ("stopReason", .obj ([("code", .str m.stopReason.code.toWire)]
           ++ (match m.stopReason.message with
               | some s => [("message", .str s)]
               | none => [])))]
    ++ (match m.toolError with
        | some s => [("toolError", .str s)]
        | none => []))

/-- JSON encoding of a message. -/
def Message.toJson : Message → Json
  | .user c => .obj [("role", .str "user"), ("content", .str c)]
  | .assistant m => m.toJson

/-- JSON encoding of a tool descriptor. -/
def Tool.toJson (t : Tool) : Json :=
  .obj [("name", .str t.name), ("description", .str t.description),
        ("inputSchema", t.inputSchema)]

/-- JSON encoding of a conversation, in its field order. -/
def Conversation.toJson (c : Conversation) : Json :=
  .obj [("systemPrompt", .str c.systemPrompt),
        ("messages", .arr (c.messages.map Message.toJson)),
        ("tools", .arr (c.tools.map Tool.toJson))]

/-- `JSON.stringify(conversation)`. -/
def stringifyConversation (c : Conversation) : String :=
  (Conversation.toJson c).render

/-- The scheduler's cheap input-size estimate:
`Math.floor(JSON.stringify(conversation).length / 4)`. -/
def tokenEstimate (c : Conversation) : Nat :=
  (stringifyConversation c).length / 4

/-- The status component of `Loop.run`'s result. -/
inductive Status where
  | ok
  | brk
  | error
deriving DecidableEq

/-- The envelope returned by `Loop.run`. -/
structure RunResult where
  status : Status
  result : Option ToolResult := none
  error : Option String := none
  usage : Usage
  turns : Nat

/-- The distinguished `"disallow"` return of the two tool-call hooks. -/
inductive HookRes where
  | allow
  | disallow
deriving DecidableEq

/-- The request passed to `callTool` (name plus arguments, the latter
already extended with the reserved `_meta` key). -/
structure ToolRequest where
  name : String
  arguments : List (String × Json)

/-- Observable events of a run: one `completion` per provider call and one
`invocation` per actual `callTool` invocation (vetoed calls invoke
nothing and record nothing). -/
inductive Event where
  | completion (turn : Nat) (message : AssistantMessage) (usage : Usage)
  | invocation (turn callIdx : Nat) (request : ToolRequest)
      (outcome : Except String ToolResult)

/-- Configuration of a run: the options of `Loop.run` together with pure
oracles for the provider, the tool callback and the two tool-call hooks,
indexed by turn and call position.  Runs without an `abortController` and
with `summarize` unset are modelled. -/
structure Config where
  task : String
  tools : List Tool
  maxTurns : Option Nat := none
  maxTokens : Option Nat := none
  maxToolCalls : Option Nat := none
  maxToolCallRetries : Option Nat := none
  provider : Nat → AssistantMessage × Usage
  callTool : Nat → Nat → ToolRequest → Except String ToolResult
  onBeforeToolCall : Nat → Nat → HookRes := fun _ _ => .allow
  onAfterToolCall : Nat → Nat → ToolResult → HookRes := fun _ _ _ => .allow

/-- The loop's mutable per-run state at the top of a turn. -/
structure LoopState where
  turns : Nat
  messages : List Message
  budgetTokens : Option Int
  budgetToolCalls : Option Int
  budgetRetries : Option Int
  totalUsage : Usage

/-- `options.maxTurns || 100`. -/
def effMaxTurns (cfg : Config) : Nat :=
  match cfg.maxTurns with
  | some n => if n = 0 then 100 else n
  | none => 100

/-- Truthiness of `options.maxTokens`. -/
def maxTokensTruthy (cfg : Config) : Bool :=
  match cfg.maxTokens with
  | some n => n ≠ 0
  | none => false

/-- The conversation visible at a state: the fixed system prompt, the
accumulated messages, and the tools wrapped with `_is_done`. -/
def convOf (cfg : Config) (s : LoopState) : Conversation :=
  { systemPrompt := loopSystemPrompt
    messages := s.messages
    tools := cfg.tools.map wrapToolWithIsDone }

/-- The `_meta` object merged into tool-call arguments before dispatch. -/
def metaJson (intent : String) : Json :=
  .obj [("dev.lowire/intent", .str intent),
        ("dev.lowire/history", .bool true),
        ("dev.lowire/state", .bool true)]

/-- The request built for `callTool`: the call's arguments spread together
with the reserved `_meta` key. -/
def mkRequest (name : String) (args : List (String × Json)) (intent : String) :
    ToolRequest :=
  { name := name, arguments := Json.objSet args "_meta" (metaJson intent) }

/-- The synthetic result attached when `onBeforeToolCall` vetoes a call. -/
def disallowedCallResult : ToolResult :=
  { content := [.text "Tool call is disallowed."], isError := true }

/-- The synthetic result attached when `onAfterToolCall` vetoes a result. -/
def disallowedReportResult : ToolResult :=
  { content := [.text "Tool result is disallowed to be reported."], isError := true }

/-- The synthetic result attached when `callTool` throws. -/
def thrownResult (name msg : String) : ToolResult :=
  { content := [.text ("Error while executing tool \"" ++ name ++ "\": " ++ msg
      ++ "\n\nPlease try to recover and complete the task.")],
    isError := true }

/-- The early return for an exhausted `maxToolCalls` budget. -/
def maxToolCallsResult (cfg : Config) (usage : Usage) (turn : Nat) : RunResult :=
  { status := .error
    error := some ("Failed to perform step, max tool calls ("
      ++ optNatToString cfg.maxToolCalls ++ ") reached")
    usage := usage, turns := turn }

/-- The early return for the `_is_done` success signal. -/
def doneResult (result : ToolResult) (usage : Usage) (turn : Nat) : RunResult :=
  { status := .ok, result := some result, usage := usage, turns := turn }

/-- Whether `--budget.toolCalls < 0` would hold for the current counter. -/
def toolBudgetSpent : Option Int → Bool
  | some c => c - 1 < 0
  | none => false

/-- The decremented `budget.toolCalls` counter. -/
def decBudget : Option Int → Option Int
  | some c => some (c - 1)
  | none => none

/-- Outcome of the per-turn tool dispatch loop: either every call was
processed (with the final `budget.toolCalls`), or an early `return`. -/
inductive DispatchOut where
  | completed (budgetToolCalls : Option Int)
  | early (r : RunResult)

/-- The tool dispatch loop of one turn, walking the assistant message's
content parts in order.  Returns the content with results attached, the
outcome, and the `callTool` invocation events. -/
def dispatch (cfg : Config) (turn : Nat) (intent : String) (usage : Usage) :
    Option Int → Nat → List ContentPart →
    List ContentPart × DispatchOut × List Event
  | bc, _, [] => ([], .completed bc, [])
  | bc, callIdx, .text t :: rest =>
    let (ps, o, es) := dispatch cfg turn intent usage bc callIdx rest
    (.text t :: ps, o, es)
  | bc, callIdx, .tool_call id name args res₀ :: rest =>
    if toolBudgetSpent bc then
      (.tool_call id name args res₀ :: rest,
       .early (maxToolCallsResult cfg usage turn), [])
    else
      let bc1 := decBudget bc
      match cfg.onBeforeToolCall turn callIdx with
      | .disallow =>
        let (ps, o, es) := dispatch cfg turn intent usage bc1 (callIdx + 1) rest
        (.tool_call id name args (some disallowedCallResult) :: ps, o, es)
      | .allow =>
        let req := mkRequest name args intent
        match cfg.callTool turn callIdx req with
        | .ok result =>
          let ev := Event.invocation turn callIdx req (.ok result)
          match cfg.onAfterToolCall turn callIdx result with
          | .disallow =>
            let (ps, o, es) := dispatch cfg turn intent usage bc1 (callIdx + 1) rest
            (.tool_call id name args (some disallowedReportResult) :: ps, o, ev :: es)
          | .allow =>
            if Json.truthyOpt (Json.objLookup args "_is_done") && !result.isError then
              (.tool_call id name args (some result) :: rest,
               .early (doneResult result usage turn), [ev])
            else
              let (ps, o, es) := dispatch cfg turn intent usage bc1 (callIdx + 1) rest
              (.tool_call id name args (some result) :: ps, o, ev :: es)
        | .error msg =>
          let ev := Event.invocation turn callIdx req (.error msg)
          let (ps, o, es) := dispatch cfg turn intent usage bc1 (callIdx + 1) rest
          (.tool_call id name args (some (thrownResult name msg)) :: ps, o, ev :: es)

/-- Whether a content part is a tool call. -/
def isToolCall : ContentPart → Bool
  | .tool_call _ _ _ _ => true
  | .text _ => false

/-- The joined text parts of an assistant message (the "intent"). -/
def intentOf (content : List ContentPart) : String :=
  String.intercalate "\n" (content.filterMap fun p =>
    match p with
    | .text t => some t
    | .tool_call _ _ _ _ => none)

/-- `toolCalls.some(toolCall => toolCall.result?.isError)` over the updated
content parts. -/
def anyErrored (content : List ContentPart) : Bool :=
  content.any fun p =>
    match p with
    | .tool_call _ _ _ (some r) => r.isError
    | _ => false

/-- The `toolError` hint set on assistant messages without tool calls. -/
def emptyToolCallsHint : String :=
  "Error: tool call is expected in every assistant message. Call the \"report_result\" tool when the task is complete."

/-- Whether the top-of-turn budget exhaustion check fires
(`options.maxTokens && budget.tokens !== undefined && budget.tokens <= 0`). -/
def budgetExhausted (cfg : Config) (s : LoopState) : Bool :=
  maxTokensTruthy cfg &&
    (match s.budgetTokens with
     | some b => b ≤ 0
     | none => false)

/-- Whether the input-size estimate meets the remaining token budget. -/
def estimateExceeds (bt : Option Int) (est : Nat) : Bool :=
  match bt with
  | some b => b ≤ (est : Int)
  | none => false

/-- Outcome of one turn: a `return` from `run`, or the next state. -/
inductive StepOut where
  | ret (r : RunResult)
  | cont (s : LoopState)

/-- One iteration of the turn loop of `Loop.run`, in source order: budget
exhaustion check, input-size estimate check, completion, stop-reason
checks, usage accounting, message append, empty-tool-calls recovery, tool
dispatch, and retry accounting. -/
def turnStep (cfg : Config) (s : LoopState) : StepOut × List Event :=
  if budgetExhausted cfg s then
    (.ret { status := .error
            error := some ("Budget tokens " ++ optNatToString cfg.maxTokens
              ++ " exhausted")
            usage := s.totalUsage, turns := s.turns }, [])
  else
    let est := tokenEstimate (convOf cfg s)
    if estimateExceeds s.budgetTokens est then
      (.ret { status := .error
              error := some ("Input token estimate " ++ toString est
                ++ " exceeds budget " ++ optIntToString s.budgetTokens)
              usage := s.totalUsage, turns := s.turns }, [])
    else
      let (am, usage) := cfg.provider s.turns
      let evC := Event.completion s.turns am usage
      match am.stopReason.code with
      | .error =>
        (.ret { status := .error, error := am.stopReason.message
                usage := s.totalUsage, turns := s.turns }, [evC])
      | .max_tokens =>
        (.ret { status := .error, error := some "Max tokens exhausted"
                usage := s.totalUsage, turns := s.turns }, [evC])
      | .ok =>
        let intent := intentOf am.content
        let newUsage : Usage :=
          { input := s.totalUsage.input + usage.input
            output := s.totalUsage.output + usage.output }
        let newBT := s.budgetTokens.map (fun b => b - ((usage.input : Int) + usage.output))
        if (am.content.filter isToolCall).isEmpty then
          (.cont { turns := s.turns + 1
                   messages := s.messages
                     ++ [.assistant { am with toolError := some emptyToolCallsHint }]
                   budgetTokens := newBT
                   budgetToolCalls := s.budgetToolCalls
                   budgetRetries := s.budgetRetries
                   totalUsage := newUsage }, [evC])
        else
          match dispatch cfg s.turns intent newUsage s.budgetToolCalls 0 am.content with
          | (_, .early r, dEvs) => (.ret r, evC :: dEvs)
          | (newContent, .completed bc1, dEvs) =>
            let hasErrors := anyErrored newContent
            let retries0 := if hasErrors then s.budgetRetries
              else cfg.maxToolCallRetries.map Int.ofNat
            let s1 : LoopState :=
              { turns := s.turns + 1
                messages := s.messages ++ [.assistant { am with content := newContent }]
                budgetTokens := newBT
                budgetToolCalls := bc1
                budgetRetries := retries0
                totalUsage := newUsage }
            if hasErrors then
              match retries0 with
              | some k =>
                if k - 1 < 0 then
                  (.ret { status := .error
                          error := some ("Failed to perform action after "
                            ++ optNatToString cfg.maxToolCallRetries
                            ++ " tool call retries")
                          usage := newUsage, turns := s.turns }, evC :: dEvs)
                else
                  (.cont { s1 with budgetRetries := some (k - 1) }, evC :: dEvs)
              | none => (.cont s1, evC :: dEvs)
            else
              (.cont s1, evC :: dEvs)

/-- The turn loop with explicit fuel (the remaining number of turns);
exhausted fuel is the `maxTurns` failure. -/
def runTurns (cfg : Config) : Nat → LoopState → RunResult × List Event
  | 0, s =>
    ({ status := .error, error := some "Failed to perform step, max attempts reached"
       usage := s.totalUsage, turns := effMaxTurns cfg }, [])
  | fuel + 1, s =>
    match turnStep cfg s with
    | (.ret r, es) => (r, es)
    | (.cont s1, es) =>
      let (r, es1) := runTurns cfg fuel s1
      (r, es ++ es1)

/-- The initial state of a run on a task. -/
def initState (cfg : Config) : LoopState :=
  { turns := 0
    messages := [.user cfg.task]
    budgetTokens := cfg.maxTokens.map Int.ofNat
    budgetToolCalls := cfg.maxToolCalls.map Int.ofNat
    budgetRetries := cfg.maxToolCallRetries.map Int.ofNat
    totalUsage := { input := 0, output := 0 } }

/-- `Loop.run` of the current loop module, returning the result envelope
and the observable events of the run. -/
def run (cfg : Config) : RunResult × List Event :=
  runTurns cfg (effMaxTurns cfg) (initState cfg)

end Lowire

namespace PkgLoop

/-- JS object assignment `o[k] = v` on a string-valued record: replace in
place when the key exists, append otherwise. -/
def assocSet (l : List (String × String)) (k v : String) : List (String × String) :=
  if l.any (fun p => p.1 = k) then
    l.map (fun p => if p.1 = k then (k, v) else p)
  else
    l ++ [(k, v)]

/-- JS `delete o[k]` on a string-valued record. -/
def assocDelete (l : List (String × String)) (k : String) : List (String × String) :=
  l.filter (fun p => p.1 ≠ k)

/-- An assistant message of the packaged loop generation (its summarizer
reads only `content` and `toolError`). -/
structure AssistantMessage where
  content : List Lowire.ContentPart
  toolError : Option String := none

/-- A conversation message of the packaged loop generation. -/
inductive Message where
  | user (content : String)
  | assistant (m : AssistantMessage)

/-- A conversation of the packaged loop generation. -/
structure Conversation where
  systemPrompt : String
  messages : List Message
  tools : List Lowire.Tool

/-- The assistant message carried by a message, if any. -/
def Message.assistantOf : Message → Option AssistantMessage
  | .user _ => none
  | .assistant m => some m

/-- `_toolResultHistory`: pseudo-XML history lines of one tool result, plus
an error line when the result is errored. -/
def toolResultHistory (r : Lowire.ToolResult) : List String :=
  (r.meta.history.map fun i =>
    "<" ++ i.category ++ ">" ++ i.content ++ "</" ++ i.category ++ ">")
  ++ (if r.isError then
        ["- error: " ++ String.intercalate "\n" (r.content.filterMap fun p =>
          match p with
          | .text t => some t
          | .image _ _ => none)]
      else [])

/-- The summary lines and state updates contributed by the content parts of
one historical assistant message, threading `combinedState` left to right. -/
def partsLines (state : List (String × String)) :
    List Lowire.ContentPart → List String × List (String × String)
  | [] => ([], state)
  | .text t :: rest =>
    let (ls, st) := partsLines state rest
    (("[assistant] " ++ t) :: ls, st)
  | .tool_call _ name args result :: rest =>
    let callLine := "[tool_call] " ++ name ++ "(" ++ (Json.obj args).render ++ ")"
    match result with
    | some r =>
      let st1 := r.meta.state.foldl (fun acc p => assocSet acc p.1 p.2) state
      let (ls, st2) := partsLines st1 rest
      (callLine :: "[tool_result]" :: (toolResultHistory r ++ ls), st2)
    | none =>
      let (ls, st) := partsLines state rest
      (callLine :: ls, st)

/-- The `### Turn N` block of one historical assistant message. -/
def messageBlock (turn : Nat) (state : List (String × String))
    (m : AssistantMessage) : List String × List (String × String) :=
  let (ls, st) := partsLines state m.content
  ("" :: ("### Turn " ++ toString (turn + 1)) :: (ls
    ++ (match m.toolError with
        | some e => ["[error] " ++ e]
        | none => [])), st)

/-- The history blocks of all but the last assistant message, with the
accumulated combined state. -/
def historyBlocks (turn : Nat) (state : List (String × String)) :
    List AssistantMessage → List String × List (String × String)
  | [] => ([], state)
  | m :: rest =>
    let (ls, st1) := messageBlock turn state m
    let (ls2, st2) := historyBlocks (turn + 1) st1 rest
    (ls ++ ls2, st2)

/-- The state keys contributed by the tool results of one message (those of
the last assistant message are deleted from the combined state). -/
def lastMessageStateKeys (m : AssistantMessage) : List String :=
  m.content.foldl (fun acc p =>
    match p with
    | .tool_call _ _ _ (some r) => acc ++ r.meta.state.map Prod.fst
    | _ => acc) []

/-- `Loop._summarizeConversation` of the packaged loop: replaces the
conversation's messages by a synthetic user recap (task, per-turn history,
combined state appendix) followed by the last assistant message, if any. -/
def summarizeConversation (task : String) (conversation : Conversation) :
    Conversation :=
  let assistantMessages := conversation.messages.filterMap Message.assistantOf
  let hist := assistantMessages.take (assistantMessages.length - 1)
  let (histLines, state0) := historyBlocks 0 [] hist
  let header := if hist.isEmpty then [] else ["", "## History"]
  let lastMessage := assistantMessages.getLast?
  let combinedState :=
    match lastMessage with
    | some lm => (lastMessageStateKeys lm).foldl assocDelete state0
    | none => state0
  let summary := ["## Task", task] ++ header ++ histLines
    ++ combinedState.map (fun p => "### " ++ p.1 ++ "\n" ++ p.2)
  { conversation with
    messages := [.user (String.intercalate "\n" summary)]
      ++ (match lastMessage with
          | some lm => [.assistant lm]
          | none => []) }

end PkgLoop

namespace Providers

/-- A stop reason as carried by adapter-produced assistant messages. -/
structure StopReason where
  code : Lowire.StopCode
  message : Option String := none

/-- A content part produced by a provider adapter, carrying the provider
echo fields. -/
inductive PContentPart where
  | text (text : String) (googleThoughtSignature : Option String)
  | tool_call (id name : String) (arguments : Json)
      (googleThoughtSignature : Option String)

/-- An assistant message as produced by the packaged provider adapters;
`stopReason` is genuinely optional: the two OpenAI adapters never set it. -/
structure PAssistantMessage where
  content : List PContentPart
  stopReason : Option StopReason := none
  openaiId : Option String := none
  openaiStatus : Option String := none

/-- Modelled from the spec: `assistantMessageFromError` of the missing
`types.ts` module maps an error detail to
`AssistantMessage\x7bstopReason:\x7bcode:error, message:<detail>\x7d, content:[]\x7d`. -/
def assistantMessageFromError (message : String) : PAssistantMessage :=
  { content := []
    stopReason := some { code := .error, message := some message } }

/-- Modelled from the spec: `emptyUsage` of the missing `types.ts` module
is the zero usage. -/
def emptyUsage : Lowire.Usage := { input := 0, output := 0 }

/-- The runtime error thrown when `response.json()` fails to parse; only
the fact that an exception propagates matters to the claims. -/
def jsonParseError : String := "Unexpected end of JSON input"

/-- Outcome of the HTTP layer below an adapter: a non-2xx response, a 2xx
response whose body fails to parse as JSON, or a parsed body. -/
inductive FetchResult (α : Type) where
  | fail (status : Nat) (statusText bodyText : String)
  | badJson
  | ok (body : α)

/-- The `API error: <status> <statusText> <body>` message shared by the
adapters' HTTP checks. -/
def apiErrorMsg (status : Nat) (statusText bodyText : String) : String :=
  "API error: " ++ toString status ++ " " ++ statusText ++ " " ++ bodyText

end Providers

namespace Google

open Providers

/-- A Gemini response part (the fields the adapter reads). -/
structure GeminiPart where
  text : Option String := none
  functionCallName : Option String := none
  functionCallArgs : Json := .null
  thoughtSignature : Option String := none

/-- A Gemini candidate. -/
structure Candidate where
  parts : Option (List GeminiPart) := none
  finishReason : Option String := none

/-- Gemini usage metadata. -/
structure UsageMetadata where
  promptTokenCount : Option Nat := none
  candidatesTokenCount : Option Nat := none

/-- A Gemini `generateContent` response body. -/
structure GenResponse where
  candidates : Option (List Candidate) := none
  usageMetadata : Option UsageMetadata := none

/-- The result of `create`: either `\x7berror\x7d` for a non-2xx response or
`\x7bresponse\x7d`; a JSON parse failure propagates as a thrown error. -/
structure CreateOut where
  response : Option GenResponse := none
  error : Option String := none

/-- `create` of the Google adapter: a non-2xx response is mapped to an
`\x7berror\x7d` value, a body parse failure throws, a parsed body is returned. -/
def create (r : FetchResult GenResponse) : Except String CreateOut :=
  match r with
  | .fail status statusText bodyText =>
    .ok { error := some (apiErrorMsg status statusText bodyText) }
  | .badJson => .error jsonParseError
  | .ok body => .ok { response := some body }

/-- `toContentPart`: a truthy `text` becomes a text part, a `functionCall`
becomes a tool call (its `id` is freshly generated from `Math.random`,
abstracted here as the supplied `idOf` applied to the part's index);
other parts are dropped.  -/
def toContentPart (idOf : Nat → String) (idx : Nat) (part : GeminiPart) :
    Option PContentPart :=
  match part.text with
  | some t =>
    if t ≠ "" then some (.text t part.thoughtSignature)
    else
      match part.functionCallName with
      | some n => some (.tool_call (idOf idx) n part.functionCallArgs part.thoughtSignature)
      | none => none
  | none =>
    match part.functionCallName with
    | some n => some (.tool_call (idOf idx) n part.functionCallArgs part.thoughtSignature)
    | none => none

/-- `toAssistantMessage` of the Google adapter: `stopReason.code` starts as
`ok` and becomes `max_tokens` exactly when `finishReason === 'MAX_TOKENS'`;
no other finish reason changes it. -/
def toAssistantMessage (idOf : Nat → String) (candidate : Candidate) :
    PAssistantMessage :=
  let code : Lowire.StopCode :=
    if candidate.finishReason = some "MAX_TOKENS" then .max_tokens else .ok
  { content := ((candidate.parts.getD []).enum.filterMap
      fun p => toContentPart idOf p.1 p.2)
    stopReason := some { code := code } }

/-- `Google.complete`: HTTP failure and missing/empty candidates are mapped
to `assistantMessageFromError` with zero usage; a parse failure propagates
as a thrown error; otherwise the first candidate is converted. -/
def complete (idOf : Nat → String) (r : FetchResult GenResponse) :
    Except String (PAssistantMessage × Lowire.Usage) :=
  match create r with
  | .error e => .error e
  | .ok out =>
    let candidate := ((out.response.bind GenResponse.candidates).getD []).head?
    match out.error, out.response, candidate with
    | some e, _, _ => .ok (assistantMessageFromError e, emptyUsage)
    | none, none, _ => .ok (assistantMessageFromError "No response from Google API", emptyUsage)
    | none, some _, none => .ok (assistantMessageFromError "No response from Google API", emptyUsage)
    | none, some resp, some c =>
      .ok (toAssistantMessage idOf c,
        { input := ((resp.usageMetadata.bind UsageMetadata.promptTokenCount).getD 0)
          output := ((resp.usageMetadata.bind UsageMetadata.candidatesTokenCount).getD 0) })

end Google

namespace OpenAIResp

open Providers

/-- A content part of a Responses output message. -/
inductive RespContentPart where
  | output_text (text : String)
  | otherPart

/-- A Responses output item. -/
inductive RespOutputItem where
  | message (id status role : String) (content : List RespContentPart)
  | function_call (call_id name : String) (arguments : Json) (id status : String)
  | otherItem

/-- Responses usage. -/
structure RespUsage where
  input_tokens : Option Nat := none
  output_tokens : Option Nat := none

/-- A Responses body. -/
structure Response where
  output : List RespOutputItem
  usage : Option RespUsage := none

/-- Folding one output item into the assistant message under construction
(`for (const item of response.output)`). -/
def foldItem (acc : PAssistantMessage) : RespOutputItem → PAssistantMessage
  | .message id status role content =>
    if role = "assistant" then
      { acc with
        openaiId := some id
        openaiStatus := some status
        content := acc.content ++ content.filterMap fun p =>
          match p with
          | .output_text t => some (.text t none)
          | .otherPart => none }
    else acc
  | .function_call call_id name args _ _ =>
    { acc with content := acc.content ++ [.tool_call call_id name args none] }
  | .otherItem => acc

/-- Parsing a Responses body into an assistant message; note that no
`stopReason` is ever attached. -/
def parseResponse (resp : Response) : PAssistantMessage :=
  resp.output.foldl foldItem { content := [] }

/-- `complete` of the OpenAI Responses adapter: `create` throws on a
non-2xx response (and a parse failure throws), so those surface as
exceptions; a parsed body is converted with its usage. -/
def complete (r : FetchResult Response) :
    Except String (PAssistantMessage × Lowire.Usage) :=
  match r with
  | .fail status statusText bodyText => .error (apiErrorMsg status statusText bodyText)
  | .badJson => .error jsonParseError
  | .ok resp =>
    .ok (parseResponse resp,
      { input := ((resp.usage.bind RespUsage.input_tokens).getD 0)
        output := ((resp.usage.bind RespUsage.output_tokens).getD 0) })

end OpenAIResp

namespace OpenAICompat

open Providers

/-- A tool-call entry of a Chat Completions choice message. -/
structure ToolCallEntry where
  id : String
  isFunctionType : Bool
  name : String
  arguments : Json

/-- A Chat Completions choice message. -/
structure ChoiceMessage where
  content : Option String := none
  tool_calls : List ToolCallEntry := []

/-- A Chat Completions choice. -/
structure Choice where
  message : ChoiceMessage

/-- Chat Completions usage. -/
structure CompletionUsage where
  prompt_tokens : Option Nat := none
  completion_tokens : Option Nat := none

/-- A Chat Completions body. -/
structure ChatCompletion where
  choices : List Choice
  usage : Option CompletionUsage := none

/-- The content parts contributed by one choice. -/
def choiceParts (c : Choice) : List PContentPart :=
  (match c.message.content with
   | some t => if t ≠ "" then [PContentPart.text t none] else []
   | none => [])
  ++ (c.message.tool_calls.filterMap fun e =>
      if e.isFunctionType then some (.tool_call e.id e.name e.arguments none)
      else none)

/-- `complete` of the OpenAI Chat Completions adapter: `create` throws on a
non-2xx response (and a parse failure throws); an empty `choices` list
throws `'Failed to get response from OpenAI completions'`; otherwise the
choices are folded into an assistant message without a `stopReason`. -/
def complete (r : FetchResult ChatCompletion) :
    Except String (PAssistantMessage × Lowire.Usage) :=
  match r with
  | .fail status statusText bodyText => .error (apiErrorMsg status statusText bodyText)
  | .badJson => .error jsonParseError
  | .ok body =>
    if body.choices.isEmpty then
      .error "Failed to get response from OpenAI completions"
    else
      .ok ({ content := (body.choices.map choiceParts).flatten },
        { input := ((body.usage.bind CompletionUsage.prompt_tokens).getD 0)
          output := ((body.usage.bind CompletionUsage.completion_tokens).getD 0) })

end OpenAICompat

namespace FetchTimeout

/-- The error classification of `fetchWithTimeout` (packaged-loop version).
The underlying `fetch` either returns a response or rejects with an error;
on rejection the code rethrows `options.signal.reason ?? error` when the
caller's signal is aborted, and otherwise a fresh
`Fetch timeout after <ms>ms` error.  `timerFired` records whether the local
timeout actually elapsed and aborted the request; the code has no access to
it, which is visible in its absence from the right-hand side. -/
def fetchWithTimeout (α : Type) (timeout : Option Nat) (signalAborted : Bool)
    (signalReason : Option String) (_timerFired : Bool)
    (fetchOutcome : Except String α) : Except String α :=
  match fetchOutcome with
  | .ok r => .ok r
  | .error e =>
    if signalAborted then .error (signalReason.getD e)
    else .error ("Fetch timeout after " ++ optNatToString timeout ++ "ms")

end FetchTimeout

namespace Cache

/-- The characters of the literal `localhost:`. -/
def lhChars : List Char := "localhost:".data

/-- The characters of the replacement `localhost:PORT`. -/
def portRepl : List Char := "localhost:PORT".data

/-- Whether the regex `localhost:\d+` matches at the start of the input:
the literal `localhost:` followed by at least one digit. -/
def isLhMatch (l : List Char) : Bool :=
  List.isPrefixOf lhChars l &&
    (match l.drop 10 with
     | c :: _ => c.isDigit
     | [] => false)

/-- `s.replace(/localhost:\d+/g, 'localhost:PORT')` on the character list:
scan left to right; at a match consume `localhost:` and the maximal digit
run and emit `localhost:PORT`; otherwise copy one character. -/
def normalizeChars (l : List Char) : List Char :=
  if _hm : isLhMatch l then
    portRepl ++ normalizeChars ((l.drop 10).dropWhile Char.isDigit)
  else
    match l with
    | [] => []
    | c :: t => c :: normalizeChars t
termination_by l.length
decreasing_by
  · simp only [isLhMatch, Bool.and_eq_true] at _hm
    obtain ⟨h1, -⟩ := _hm
    have hd := (List.dropWhile_sublist (l := l.drop 10) Char.isDigit).length_le
    rw [List.length_drop] at hd
    have hne : l ≠ [] := by
      rintro rfl
      simp [lhChars, List.isPrefixOf] at h1
    have hpos : 0 < l.length := List.length_pos.mpr hne
    omega
  · simp

/-- Port normalization of the serialized conversation, as performed by the
replay cache before hashing. -/
def normalizeLocalhost (s : String) : String :=
  String.mk (normalizeChars s.data)

/-- Modelled from the spec: the replay-cache fingerprint of the current
cache module (absent from `src/`; `src/src/cache.ts` is an earlier
generation without normalization) is the SHA-1 digest of the
port-normalized `JSON.stringify(conversation)`; the digest function of the
`crypto` library is abstracted as `sha1`. -/
def fingerprint (sha1 : String → String) (c : Lowire.Conversation) : String :=
  sha1 (normalizeLocalhost (Lowire.stringifyConversation c))

/-- `conversationHash` of the earlier `src/src/cache.ts` generation: the
SHA-1 digest of the unnormalized serialization. -/
def conversationHash (sha1 : String → String) (c : Lowire.Conversation) : String :=
  sha1 (Lowire.stringifyConversation c)

/-- Two byte strings differ only in the digits of `localhost:<digits>`
substrings: they decompose into identical parts except that matching
`localhost:` occurrences are followed by possibly different non-empty digit
runs. -/
inductive PortDiff : List Char → List Char → Prop where
  | nil : PortDiff [] []
  | same (c : Char) (s t : List Char) : PortDiff s t → PortDiff (c :: s) (c :: t)
  | port (d1 d2 r1 r2 : List Char)
      (hd1 : d1 ≠ [] ∧ ∀ c ∈ d1, c.isDigit)
      (hd2 : d2 ≠ [] ∧ ∀ c ∈ d2, c.isDigit)
      (h : PortDiff r1 r2) :
      PortDiff (lhChars ++ (d1 ++ r1)) (lhChars ++ (d2 ++ r2))

end Cache

namespace Lowire

/-- The `properties` object of a tool's input schema. -/
def toolProps (t : Tool) : Option Json :=
  Json.objLookup (objFields t.inputSchema) "properties"

/-- The elements of the `required` array of a tool's input schema. -/
def toolRequired (t : Tool) : List Json :=
  requiredElems (Json.objLookup (objFields t.inputSchema) "required")

/-- The number of `required` entries of a tool's input schema. -/
def toolRequiredLen (t : Tool) : Nat :=
  (toolRequired t).length

/-- A sample caller-supplied tool used in concrete scenarios. -/
def sampleTool : Tool :=
  { name := "push"
    description := "Push a value to the stack."
    inputSchema := .obj
      [("type", .str "object"),
       ("properties", .obj [("value", .obj [("type", .str "number")])]),
       ("required", .arr [.str "value"])] }

end Lowire

namespace PkgLoop

/-- The user-message bodies of a message list (a decidable projection used
to compare summarizer outputs). -/
def userContents (l : List Message) : List String :=
  l.filterMap fun m =>
    match m with
    | .user c => some c
    | .assistant _ => none

end PkgLoop

namespace Google

/-- A concrete candidate whose `finishReason` is an abnormal stop
(`SAFETY`), used to test the stop-reason mapping. -/
def safetyCandidate : Candidate :=
  { parts := some [{ text := some "blocked" }]
    finishReason := some "SAFETY" }

/-- A fixed id generator standing in for the adapter's `Math.random` ids. -/
def fixedIds : Nat → String := fun _ => "call_fixed"

end Google

namespace Lowire

/-- Whether an event is a `callTool` invocation. -/
def Event.isInvocation : Event → Bool
  | .invocation _ _ _ _ => true
  | .completion _ _ _ => false

/-- The continuation state of a turn outcome, with a fallback for returns
(used to name the successor state of a concrete turn). -/
def stepContOf (p : StepOut × List Event) (dflt : LoopState) : LoopState :=
  match p.1 with
  | .cont s => s
  | .ret _ => dflt

/-- A provider oracle answering every turn with a fixed message and usage. -/
def constProvider (m : AssistantMessage) (u : Usage) : Nat → AssistantMessage × Usage :=
  fun _ => (m, u)

/-- An assistant message carrying one `push` tool call without `_is_done`. -/
def pushCallMsg : AssistantMessage :=
  { content := [.text "pushing",
      .tool_call "c1" "push" [("value", .num 1)] none]
    stopReason := { code := .ok } }

/-- An assistant message carrying one `push` tool call with `_is_done: true`. -/
def doneCallMsg : AssistantMessage :=
  { content := [.text "finishing",
      .tool_call "c2" "push" [("value", .num 2), ("_is_done", .bool true)] none]
    stopReason := { code := .ok } }

/-- A configuration whose token budget of 1 is below the estimate of its
initial conversation. -/
def estimateCfg : Config :=
  { task := "This is a test, reply with just \"Hello world\""
    tools := [sampleTool]
    maxTokens := some 1
    provider := constProvider pushCallMsg { input := 5, output := 7 }
    callTool := fun _ _ _ => .ok { content := [.text "ok"] } }

/-- The errored result produced by the failing `push` tool. -/
def erroredPushResult : ToolResult :=
  { content := [.text "Could not push value at this time, please try again."]
    isError := true }

/-- A configuration whose tool always reports an errored result, under a
retry budget of 2. -/
def retryCfg : Config :=
  { task := "Use the tool push to push the number 1."
    tools := [sampleTool]
    maxToolCallRetries := some 2
    provider := constProvider pushCallMsg { input := 5, output := 7 }
    callTool := fun _ _ _ => .ok erroredPushResult }

/-- The stored assistant message of `retryCfg`'s first turn: the `push`
call with the errored result attached. -/
def erroredPushMsg : AssistantMessage :=
  { content := [.text "pushing",
      .tool_call "c1" "push" [("value", .num 1)] (some erroredPushResult)]
    stopReason := { code := .ok } }

/-- A configuration whose `onBeforeToolCall` hook vetoes every call, under
a retry budget of 2. -/
def disallowCfg : Config :=
  { task := "Use the tool push to push the number 1."
    tools := [sampleTool]
    maxToolCallRetries := some 2
    provider := constProvider pushCallMsg { input := 5, output := 7 }
    callTool := fun _ _ _ => .ok { content := [.text "ok"] }
    onBeforeToolCall := fun _ _ => .disallow }

/-- A configuration whose assistant signals `_is_done` on the first turn
and whose tool succeeds. -/
def doneCfg : Config :=
  { task := "Push 2 and stop."
    tools := [sampleTool]
    provider := constProvider doneCallMsg { input := 5, output := 7 }
    callTool := fun _ _ _ => .ok { content := [.text "pushed 2"] } }

/-- The `doneCfg` scenario with an `onAfterToolCall` hook vetoing every
result. -/
def doneDisallowCfg : Config :=
  { doneCfg with
    maxTurns := some 1
    onAfterToolCall := fun _ _ _ => .disallow }

end Lowire

namespace Cache

/-- A concrete conversation whose task mentions an ephemeral local port. -/
def portConv1 : Lowire.Conversation :=
  { systemPrompt := "", messages := [.user "localhost:8907"], tools := [] }

/-- The same conversation with a different ephemeral port. -/
def portConv2 : Lowire.Conversation :=
  { systemPrompt := "", messages := [.user "localhost:8909"], tools := [] }

/-- The serialized bytes of `portConv1`/`portConv2` before `localhost:`. -/
def portPre : List Char :=
  "\x7b\"systemPrompt\":\"\",\"messages\":[\x7b\"role\":\"user\",\"content\":\"".data

/-- The serialized bytes of `portConv1`/`portConv2` after the port digits. -/
def portPost : List Char :=
  "\"\x7d],\"tools\":[]\x7d".data

end Cache

section ObjSetLemmas

theorem objSet_eq_map (l : List (String × Json)) (k : String) (v : Json)
    (h : l.any (fun p => p.1 = k) = true) :
    Json.objSet l k v = l.map (fun p => if p.1 = k then (k, v) else p) := by
  unfold Json.objSet
  rw [if_pos h]

theorem objSet_eq_append (l : List (String × Json)) (k : String) (v : Json)
    (h : ¬ l.any (fun p => p.1 = k) = true) :
    Json.objSet l k v = l ++ [(k, v)] := by
  unfold Json.objSet
  rw [if_neg h]

theorem map_id_of_fixed {α : Type} (l : List α) (f : α → α)
    (h : ∀ a ∈ l, f a = a) : l.map f = l := by
  induction l with
  | nil => rfl
  | cons hd tl ih =>
    simp only [List.map_cons, h hd (by simp)]
    rw [ih (fun a ha => h a (by simp [ha]))]

theorem not_any_key {l : List (String × Json)} {k : String}
    (h : ¬ l.any (fun p => p.1 = k) = true) : ∀ p ∈ l, p.1 ≠ k := by
  intro p hp hk
  exact h (List.any_eq_true.mpr ⟨p, hp, by simpa using hk⟩)

theorem objLookup_map_set (l : List (String × Json)) (k : String) (v : Json)
    (hany : l.any (fun p => p.1 = k) = true) :
    Json.objLookup (l.map (fun p => if p.1 = k then (k, v) else p)) k = some v := by
  induction l with
  | nil => simp at hany
  | cons hd tl ih =>
    simp only [List.any_cons, Bool.or_eq_true, decide_eq_true_eq] at hany
    simp only [List.map_cons]
    by_cases h : hd.1 = k
    · rw [if_pos h]
      simp [Json.objLookup]
    · rw [if_neg h]
      have htl : tl.any (fun p => p.1 = k) = true := by
        rcases hany with h1 | h2
        · exact absurd h1 h
        · exact h2
      simp only [Json.objLookup, if_neg h]
      exact ih htl

theorem objLookup_append (a b : List (String × Json)) (k : String) :
    Json.objLookup (a ++ b) k =
      (match Json.objLookup a k with
       | some v => some v
       | none => Json.objLookup b k) := by
  induction a with
  | nil => simp [Json.objLookup]
  | cons hd tl ih =>
    by_cases h : hd.1 = k
    · simp [Json.objLookup, h]
    · simp only [List.cons_append, Json.objLookup, if_neg h]
      exact ih

theorem objLookup_none_of_no_key (l : List (String × Json)) (k : String)
    (h : ∀ p ∈ l, p.1 ≠ k) : Json.objLookup l k = none := by
  induction l with
  | nil => rfl
  | cons hd tl ih =>
    simp only [Json.objLookup, if_neg (h hd (by simp))]
    exact ih (fun p hp => h p (by simp [hp]))

theorem objLookup_objSet_self (l : List (String × Json)) (k : String) (v : Json) :
    Json.objLookup (Json.objSet l k v) k = some v := by
  by_cases hany : l.any (fun p => p.1 = k) = true
  · rw [objSet_eq_map l k v hany]
    exact objLookup_map_set l k v hany
  · rw [objSet_eq_append l k v hany, objLookup_append,
      objLookup_none_of_no_key l k (not_any_key hany)]
    simp [Json.objLookup]

theorem objLookup_objSet_ne (l : List (String × Json)) (k k' : String) (v : Json)
    (h : k' ≠ k) :
    Json.objLookup (Json.objSet l k v) k' = Json.objLookup l k' := by
  by_cases hany : l.any (fun p => p.1 = k) = true
  · rw [objSet_eq_map l k v hany]
    clear hany
    induction l with
    | nil => rfl
    | cons hd tl ih =>
      simp only [List.map_cons]
      by_cases hh : hd.1 = k
      · rw [if_pos hh]
        have h1 : ¬ (k = k') := Ne.symm h
        have h2 : ¬ (hd.1 = k') := by
          rw [hh]
          exact h1
        simp only [Json.objLookup, if_neg h1, if_neg h2]
        exact ih
      · rw [if_neg hh]
        by_cases hdk : hd.1 = k'
        · simp [Json.objLookup, hdk]
        · simp only [Json.objLookup, if_neg hdk]
          exact ih
  · rw [objSet_eq_append l k v hany, objLookup_append]
    have hone : Json.objLookup [(k, v)] k' = none := by
      simp [Json.objLookup, Ne.symm h]
    rw [hone]
    cases Json.objLookup l k' <;> rfl

theorem objSet_any_self (l : List (String × Json)) (k : String) (v : Json) :
    (Json.objSet l k v).any (fun p => p.1 = k) = true := by
  by_cases hany : l.any (fun p => p.1 = k) = true
  · rw [objSet_eq_map l k v hany]
    rcases List.any_eq_true.mp hany with ⟨p, hp, hpk⟩
    apply List.any_eq_true.mpr
    simp only [decide_eq_true_eq] at hpk
    exact ⟨(k, v), List.mem_map.mpr ⟨p, hp, by simp [hpk]⟩, by simp⟩
  · rw [objSet_eq_append l k v hany]
    apply List.any_eq_true.mpr
    exact ⟨(k, v), by simp, by simp⟩

theorem objSet_objSet_self (l : List (String × Json)) (k : String) (v : Json) :
    Json.objSet (Json.objSet l k v) k v = Json.objSet l k v := by
  rw [objSet_eq_map (Json.objSet l k v) k v (objSet_any_self l k v)]
  by_cases hany : l.any (fun p => p.1 = k) = true
  · rw [objSet_eq_map l k v hany, List.map_map]
    apply List.map_congr_left
    intro a _
    by_cases ha : a.1 = k
    · simp [ha]
    · simp [ha]
  · rw [objSet_eq_append l k v hany, List.map_append]
    rw [map_id_of_fixed l _ (fun a ha => by simp [not_any_key hany a ha])]
    simp

end ObjSetLemmas

section Claim7

/-- C7 (counterexample): tool-schema wrapping is not idempotent as claimed:
wrapping the already-wrapped sample tool does not yield the once-wrapped
schema, because a second `"_is_done"` entry is appended to `required`. -/
theorem claim7_wrap_not_idempotent :
    Lowire.wrapToolWithIsDone (Lowire.wrapToolWithIsDone Lowire.sampleTool)
      ≠ Lowire.wrapToolWithIsDone Lowire.sampleTool :=
  fun h => absurd (congrArg Lowire.toolRequiredLen h) (by decide)

/-- C7 (amended): wrapping a wrapped tool preserves the `properties` object
(`_is_done` keeps its position and value), the name and the description,
but appends one more `"_is_done"` entry to `required`; the input tool value
is not modified (wrapping builds shallow copies). -/
theorem claim7_wrap_wrap_characterization (t : Lowire.Tool) :
    Lowire.toolProps (Lowire.wrapToolWithIsDone (Lowire.wrapToolWithIsDone t))
      = Lowire.toolProps (Lowire.wrapToolWithIsDone t) ∧
    Lowire.toolRequired (Lowire.wrapToolWithIsDone (Lowire.wrapToolWithIsDone t))
      = Lowire.toolRequired (Lowire.wrapToolWithIsDone t) ++ [.str "_is_done"] ∧
    (Lowire.wrapToolWithIsDone t).name = t.name ∧
    (Lowire.wrapToolWithIsDone t).description = t.description := by
  have hne : ("properties" : String) ≠ "required" := by decide
  refine ⟨?_, ?_, rfl, rfl⟩
  · unfold Lowire.wrapToolWithIsDone Lowire.toolProps
    simp only [Lowire.objFields]
    rw [objLookup_objSet_ne _ _ _ _ hne, objLookup_objSet_self,
      objLookup_objSet_ne _ _ _ _ hne, objLookup_objSet_self]
    simp only [Option.getD_some, Lowire.objFields]
    rw [objSet_objSet_self]
  · unfold Lowire.wrapToolWithIsDone Lowire.toolRequired
    simp only [Lowire.objFields]
    rw [objLookup_objSet_self, objLookup_objSet_self]
    simp only [Lowire.requiredElems]

end Claim7

section Claim5

theorem foldItem_stopReason (acc : Providers.PAssistantMessage)
    (item : OpenAIResp.RespOutputItem) :
    (OpenAIResp.foldItem acc item).stopReason = acc.stopReason := by
  cases item with
  | message id status role content =>
    simp only [OpenAIResp.foldItem]
    split <;> rfl
  | function_call a b c d e => rfl
  | otherItem => rfl

theorem foldl_stopReason (items : List OpenAIResp.RespOutputItem)
    (acc : Providers.PAssistantMessage) :
    (items.foldl OpenAIResp.foldItem acc).stopReason = acc.stopReason := by
  induction items generalizing acc with
  | nil => rfl
  | cons hd tl ih => rw [List.foldl_cons, ih, foldItem_stopReason]

/-- C5 (counterexample): a Google candidate whose `finishReason` is
`SAFETY` (neither a normal stop nor `MAX_TOKENS`) is mapped to stop code
`ok`, not `error` as the claim states. -/
theorem claim5_counterexample :
    (Google.toAssistantMessage Google.fixedIds Google.safetyCandidate).stopReason.map
      Providers.StopReason.code ≠ some Lowire.StopCode.error := by
  decide

/-- C5 (amended): the Google adapter maps `finishReason = MAX_TOKENS` to
`max_tokens` and every other candidate (normal or abnormal finish reason)
to `ok`; the two OpenAI adapters never attach a `stopReason` at all, so an
`error` stop reason arises only from `assistantMessageFromError` on failed
transport or missing candidates, never from the per-response mapping. -/
theorem claim5_stop_reason_mapping :
    (∀ (idOf : Nat → String) (c : Google.Candidate),
      (Google.toAssistantMessage idOf c).stopReason
        = some { code := if c.finishReason = some "MAX_TOKENS" then
            Lowire.StopCode.max_tokens else Lowire.StopCode.ok }) ∧
    (∀ resp : OpenAIResp.Response,
      (OpenAIResp.parseResponse resp).stopReason = none) ∧
    (∀ body : OpenAICompat.ChatCompletion,
      (OpenAICompat.complete (.ok body)).map (fun p => p.1.stopReason)
        = if body.choices.isEmpty then
            .error "Failed to get response from OpenAI completions"
          else .ok none) := by
  refine ⟨fun idOf c => rfl, fun resp => foldl_stopReason _ _, fun body => ?_⟩
  by_cases h : body.choices.isEmpty
  · simp [OpenAICompat.complete, h, Except.map]
  · simp [OpenAICompat.complete, h, Except.map]

end Claim5

section Claim4

/-- C4 (counterexample): the OpenAI Chat Completions adapter throws on an
empty candidate list instead of returning an assistant message with an
`error` stop reason, refuting the claim that `complete` never throws in
these cases. -/
theorem claim4_counterexample :
    OpenAICompat.complete (.ok { choices := [] })
      = .error "Failed to get response from OpenAI completions" := rfl

/-- C4 (amended): only the Google adapter maps an HTTP failure or a
missing/empty candidate list to an `AssistantMessage` with an `error` stop
reason and zero usage; a JSON body parse failure throws in all three
adapters, and the two OpenAI adapters also throw on HTTP failure and on an
empty `choices` list. -/
theorem claim4_error_paths :
    (∀ (idOf : Nat → String) (st : Nat) (sx b : String),
      Google.complete idOf (.fail st sx b)
        = .ok (Providers.assistantMessageFromError (Providers.apiErrorMsg st sx b),
            Providers.emptyUsage)) ∧
    (∀ (idOf : Nat → String) (um : Option Google.UsageMetadata),
      Google.complete idOf (.ok { candidates := none, usageMetadata := um })
        = .ok (Providers.assistantMessageFromError "No response from Google API",
            Providers.emptyUsage)) ∧
    (∀ (idOf : Nat → String) (um : Option Google.UsageMetadata),
      Google.complete idOf (.ok { candidates := some [], usageMetadata := um })
        = .ok (Providers.assistantMessageFromError "No response from Google API",
            Providers.emptyUsage)) ∧
    (∀ idOf : Nat → String,
      Google.complete idOf .badJson = .error Providers.jsonParseError) ∧
    (∀ (st : Nat) (sx b : String),
      OpenAIResp.complete (.fail st sx b) = .error (Providers.apiErrorMsg st sx b)) ∧
    (OpenAIResp.complete .badJson = .error Providers.jsonParseError) ∧
    (∀ (st : Nat) (sx b : String),
      OpenAICompat.complete (.fail st sx b) = .error (Providers.apiErrorMsg st sx b)) ∧
    (OpenAICompat.complete .badJson = .error Providers.jsonParseError) ∧
    (∀ u : Option OpenAICompat.CompletionUsage,
      OpenAICompat.complete (.ok { choices := [], usage := u })
        = .error "Failed to get response from OpenAI completions") := by
  exact ⟨fun _ _ _ _ => rfl, fun _ _ => rfl, fun _ _ => rfl, fun _ => rfl,
    fun _ _ _ => rfl, rfl, fun _ _ _ => rfl, rfl, fun _ => rfl⟩

end Claim4

section Claim8

/-- C8 (counterexample): a plain network failure (`fetch` rejecting while
neither the timer nor the caller's signal aborted anything) is reported as
`Fetch timeout after 100ms`, so a failure with the timeout message is not
restricted to timeout-triggered aborts. -/
theorem claim8_counterexample :
    FetchTimeout.fetchWithTimeout Unit (some 100) false none false
      (.error "connect ECONNREFUSED")
      = .error "Fetch timeout after 100ms" := rfl

/-- C8 (amended): when the underlying `fetch` rejects, `fetchWithTimeout`
propagates `signal.reason ?? error` if the caller's signal is aborted and
otherwise fails with `Fetch timeout after <ms>ms` — whenever the rejection
is not a caller abort, including genuine network failures; a timeout
elapsing is the intended instance of the second case (the caller's signal
is then not aborted), and successes pass through unchanged. -/
theorem claim8_fetch_timeout_classification (α : Type) (t : Option Nat)
    (sr : Option String) (tf : Bool) (e : String) :
    (∀ r : α, FetchTimeout.fetchWithTimeout α t false sr tf (.ok r) = .ok r) ∧
    FetchTimeout.fetchWithTimeout α t true sr tf (.error e) = .error (sr.getD e) ∧
    FetchTimeout.fetchWithTimeout α t false sr tf (.error e)
      = .error ("Fetch timeout after " ++ optNatToString t ++ "ms") :=
  ⟨fun _ => rfl, rfl, rfl⟩

end Claim8

section Claim9

theorem foldl_assocDelete_nil (ks : List String) :
    ks.foldl PkgLoop.assocDelete [] = [] := by
  induction ks with
  | nil => rfl
  | cons hd tl ih => simpa [PkgLoop.assocDelete] using ih

/-- C9 (counterexample): the summarizer is not a fixed point on a
conversation with no assistant messages: the single user message `"t"` is
replaced by the recap `"## Task\nt"`, so the output message list differs
from the original one. -/
theorem claim9_counterexample :
    (PkgLoop.summarizeConversation "t"
      { systemPrompt := "sp", messages := [.user "t"], tools := [] }).messages
      ≠ [PkgLoop.Message.user "t"] :=
  fun h => absurd (congrArg PkgLoop.userContents h) (by decide)

/-- C9 (amended): on a conversation with at most one assistant message the
summarizer emits no history and no state appendix: its output keeps the
system prompt and tools, preserves the last assistant message verbatim,
and replaces all other messages by the single user recap
`"## Task\n" ++ task`. -/
theorem claim9_summarizer_degenerate (task : String) (conv : PkgLoop.Conversation)
    (h : (conv.messages.filterMap PkgLoop.Message.assistantOf).length ≤ 1) :
    PkgLoop.summarizeConversation task conv
      = { conv with messages :=
            [.user ("## Task\n" ++ task)]
            ++ (match (conv.messages.filterMap PkgLoop.Message.assistantOf).getLast? with
                | some lm => [.assistant lm]
                | none => []) } := by
  have hjoin : String.intercalate "\n" ["## Task", task] = "## Task\n" ++ task := by
    show "## Task" ++ "\n" ++ task = "## Task\n" ++ task
    rfl
  unfold PkgLoop.summarizeConversation
  match hAM : conv.messages.filterMap PkgLoop.Message.assistantOf with
  | [] =>
    simp [PkgLoop.historyBlocks, hjoin]
  | [m] =>
    simp [PkgLoop.historyBlocks, foldl_assocDelete_nil, hjoin]
  | a :: b :: rest =>
    rw [hAM] at h
    simp at h

end Claim9

/-- C9 witness: the degenerate-summarization theorem applied to a concrete
one-assistant-message conversation. -/
theorem claim9_witness :
    PkgLoop.summarizeConversation "t"
      { systemPrompt := "sp"
        messages := [.user "t", .assistant { content := [.text "hi"] }]
        tools := [] }
      = { systemPrompt := "sp"
          messages := [.user "## Task\nt", .assistant { content := [.text "hi"] }]
          tools := [] } :=
  claim9_summarizer_degenerate "t"
    { systemPrompt := "sp"
      messages := [.user "t", .assistant { content := [.text "hi"] }]
      tools := [] } (by decide)

section Claim1

open Lowire

theorem dispatch_done_event (cfg : Config) (t : Nat) (intent : String)
    (u : Usage) :
    ∀ (parts : List ContentPart) (bc : Option Int) (idx : Nat)
      (t' i : Nat) (req : ToolRequest) (r : ToolResult),
      Event.invocation t' i req (.ok r) ∈ (dispatch cfg t intent u bc idx parts).2.2 →
      Json.truthyOpt (Json.objLookup req.arguments "_is_done") = true →
      r.isError = false →
      cfg.onAfterToolCall t' i r = .allow →
      (dispatch cfg t intent u bc idx parts).2.1 = .early (doneResult r u t) ∧
        t' = t := by
  intro parts
  induction parts with
  | nil =>
    intro bc idx t' i req r hmem _ _ _
    simp [dispatch] at hmem
  | cons hd rest ih =>
    intro bc idx t' i req r hmem hdone herr hallow
    cases hd with
    | text s =>
      rcases hrec : dispatch cfg t intent u bc idx rest with ⟨ps, o, es⟩
      have heq : dispatch cfg t intent u bc idx (ContentPart.text s :: rest)
          = (ContentPart.text s :: ps, o, es) := by
        simp only [dispatch, hrec]
      rw [heq] at hmem ⊢
      have := ih bc idx t' i req r (by rw [hrec]; exact hmem) hdone herr hallow
      rw [hrec] at this
      exact this
    | tool_call id name args res₀ =>
      by_cases hspent : toolBudgetSpent bc = true
      · have heq : dispatch cfg t intent u bc idx
            (ContentPart.tool_call id name args res₀ :: rest)
            = (ContentPart.tool_call id name args res₀ :: rest,
               .early (maxToolCallsResult cfg u t), []) := by
          simp only [dispatch, hspent, if_true]
        rw [heq] at hmem
        simp at hmem
      · cases hbh : cfg.onBeforeToolCall t idx with
        | disallow =>
          rcases hrec : dispatch cfg t intent u (decBudget bc) (idx + 1) rest
            with ⟨ps, o, es⟩
          have heq : dispatch cfg t intent u bc idx
              (ContentPart.tool_call id name args res₀ :: rest)
              = (ContentPart.tool_call id name args (some disallowedCallResult) :: ps,
                 o, es) := by
            simp only [dispatch, hspent, Bool.false_eq_true, if_false, hbh, hrec]
          rw [heq] at hmem ⊢
          have := ih (decBudget bc) (idx + 1) t' i req r
            (by rw [hrec]; exact hmem) hdone herr hallow
          rw [hrec] at this
          exact this
        | allow =>
          cases hct : cfg.callTool t idx (mkRequest name args intent) with
          | ok result =>
            cases hah : cfg.onAfterToolCall t idx result with
            | disallow =>
              rcases hrec : dispatch cfg t intent u (decBudget bc) (idx + 1) rest
                with ⟨ps, o, es⟩
              have heq : dispatch cfg t intent u bc idx
                  (ContentPart.tool_call id name args res₀ :: rest)
                  = (ContentPart.tool_call id name args (some disallowedReportResult) :: ps,
                     o,
                     Event.invocation t idx (mkRequest name args intent) (.ok result) :: es) := by
                simp only [dispatch, hspent, Bool.false_eq_true, if_false, hbh,
                  hct, hah, hrec]
              rw [heq] at hmem ⊢
              rcases List.mem_cons.mp hmem with hhead | htail
              · injection hhead with h1 h2 h3 h4
                injection h4 with h5
                subst h1
                subst h2
                subst h5
                rw [hallow] at hah
                cases hah
              · have := ih (decBudget bc) (idx + 1) t' i req r
                  (by rw [hrec]; exact htail) hdone herr hallow
                rw [hrec] at this
                exact this
            | allow =>
              by_cases hdone0 : (Json.truthyOpt (Json.objLookup args "_is_done")
                  && !result.isError) = true
              · have heq : dispatch cfg t intent u bc idx
                    (ContentPart.tool_call id name args res₀ :: rest)
                    = (ContentPart.tool_call id name args (some result) :: rest,
                       .early (doneResult result u t),
                       [Event.invocation t idx (mkRequest name args intent) (.ok result)]) := by
                  simp only [dispatch, hspent, Bool.false_eq_true, if_false, hbh,
                    hct, hah, hdone0, if_true]
                rw [heq] at hmem ⊢
                rcases List.mem_singleton.mp hmem with hhead
                injection hhead with h1 h2 h3 h4
                injection h4 with h5
                subst h1
                subst h5
                exact ⟨rfl, rfl⟩
              · rcases hrec : dispatch cfg t intent u (decBudget bc) (idx + 1) rest
                  with ⟨ps, o, es⟩
                have heq : dispatch cfg t intent u bc idx
                    (ContentPart.tool_call id name args res₀ :: rest)
                    = (ContentPart.tool_call id name args (some result) :: ps,
                       o,
                       Event.invocation t idx (mkRequest name args intent) (.ok result) :: es) := by
                  simp only [dispatch, hspent, Bool.false_eq_true, if_false, hbh,
                    hct, hah, hrec]
                  rw [if_neg hdone0]
                rw [heq] at hmem ⊢
                rcases List.mem_cons.mp hmem with hhead | htail
                · injection hhead with h1 h2 h3 h4
                  injection h4 with h5
                  subst h3
                  subst h5
                  exact absurd (by
                    rw [show Json.objLookup
                        (mkRequest name args intent).arguments "_is_done"
                        = Json.objLookup args "_is_done" from
                      objLookup_objSet_ne args "_meta" "_is_done" (metaJson intent)
                        (by decide)] at hdone
                    rw [hdone, herr]
                    rfl) hdone0
                · have := ih (decBudget bc) (idx + 1) t' i req r
                    (by rw [hrec]; exact htail) hdone herr hallow
                  rw [hrec] at this
                  exact this
          | error msg =>
            rcases hrec : dispatch cfg t intent u (decBudget bc) (idx + 1) rest
              with ⟨ps, o, es⟩
            have heq : dispatch cfg t intent u bc idx
                (ContentPart.tool_call id name args res₀ :: rest)
                = (ContentPart.tool_call id name args (some (thrownResult name msg)) :: ps,
                   o,
                   Event.invocation t idx (mkRequest name args intent) (.error msg) :: es) := by
              simp only [dispatch, hspent, Bool.false_eq_true, if_false, hbh,
                hct, hrec]
            rw [heq] at hmem ⊢
            rcases List.mem_cons.mp hmem with hhead | htail
            · injection hhead with h1 h2 h3 h4
              cases h4
            · have := ih (decBudget bc) (idx + 1) t' i req r
                (by rw [hrec]; exact htail) hdone herr hallow
              rw [hrec] at this
              exact this

theorem turnStep_done_event (cfg : Config) (s : LoopState)
    (t i : Nat) (req : ToolRequest) (r : ToolResult)
    (hdone : Json.truthyOpt (Json.objLookup req.arguments "_is_done") = true)
    (herr : r.isError = false)
    (hallow : cfg.onAfterToolCall t i r = .allow)
    (hmem : Event.invocation t i req (.ok r) ∈ (turnStep cfg s).2) :
    ∃ r0 : RunResult, (turnStep cfg s).1 = .ret r0 ∧ r0.status = .ok ∧
      r0.result = some r ∧ r0.turns = s.turns ∧ t = s.turns := by
  rcases hp : cfg.provider s.turns with ⟨am, usage⟩
  rcases hts : turnStep cfg s with ⟨o, es⟩
  rw [hts] at hmem
  simp only at hmem
  simp only [turnStep, hp] at hts
  split at hts
  · injection hts with h1 h2
    subst h2
    simp at hmem
  · split at hts
    · injection hts with h1 h2
      subst h2
      simp at hmem
    · split at hts
      · injection hts with h1 h2
        subst h2
        rcases List.mem_singleton.mp hmem with hhead
        exact Event.noConfusion hhead
      · injection hts with h1 h2
        subst h2
        rcases List.mem_singleton.mp hmem with hhead
        exact Event.noConfusion hhead
      · split at hts
        · injection hts with h1 h2
          subst h2
          rcases List.mem_singleton.mp hmem with hhead
          exact Event.noConfusion hhead
        · rcases hd : dispatch cfg s.turns (intentOf am.content)
              { input := s.totalUsage.input + usage.input
                output := s.totalUsage.output + usage.output }
              s.budgetToolCalls 0 am.content with ⟨parts2, o2, dEvs⟩
          rw [hd] at hts
          cases o2 with
          | early r1 =>
            simp only at hts
            injection hts with h1 h2
            subst h2
            rcases List.mem_cons.mp hmem with hhead | htail
            · exact Event.noConfusion hhead
            · obtain ⟨hearly, hteq⟩ := dispatch_done_event cfg s.turns
                (intentOf am.content)
                { input := s.totalUsage.input + usage.input
                  output := s.totalUsage.output + usage.output }
                am.content s.budgetToolCalls 0 t i req r
                (by rw [hd]; exact htail) hdone herr hallow
              rw [hd] at hearly
              simp only at hearly
              injection hearly with h3
              subst h3
              exact ⟨_, h1.symm, rfl, rfl, rfl, hteq⟩
          | completed bc1 =>
            simp only at hts
            have hes : es = Event.completion s.turns am usage :: dEvs := by
              split at hts
              · split at hts
                · split at hts
                  · injection hts with h1 h2
                    exact h2.symm
                  · injection hts with h1 h2
                    exact h2.symm
                · injection hts with h1 h2
                  exact h2.symm
              · injection hts with h1 h2
                exact h2.symm
            rw [hes] at hmem
            rcases List.mem_cons.mp hmem with hhead | htail
            · exact Event.noConfusion hhead
            · obtain ⟨hearly, -⟩ := dispatch_done_event cfg s.turns
                (intentOf am.content)
                { input := s.totalUsage.input + usage.input
                  output := s.totalUsage.output + usage.output }
                am.content s.budgetToolCalls 0 t i req r
                (by rw [hd]; exact htail) hdone herr hallow
              rw [hd] at hearly
              simp only at hearly
              exact DispatchOut.noConfusion hearly

theorem runTurns_done_event (cfg : Config) :
    ∀ (fuel : Nat) (s : LoopState) (t i : Nat) (req : ToolRequest)
      (r : ToolResult),
      Json.truthyOpt (Json.objLookup req.arguments "_is_done") = true →
      r.isError = false →
      cfg.onAfterToolCall t i r = .allow →
      Event.invocation t i req (.ok r) ∈ (runTurns cfg fuel s).2 →
      (runTurns cfg fuel s).1.status = .ok ∧
      (runTurns cfg fuel s).1.result = some r ∧
      (runTurns cfg fuel s).1.turns = t := by
  intro fuel
  induction fuel with
  | zero =>
    intro s t i req r _ _ _ hmem
    simp [runTurns] at hmem
  | succ n ih =>
    intro s t i req r hdone herr hallow hmem
    rcases hts : turnStep cfg s with ⟨o, es⟩
    cases o with
    | ret r0 =>
      have hrun : runTurns cfg (n + 1) s = (r0, es) := by
        simp only [runTurns, hts]
      rw [hrun] at hmem ⊢
      obtain ⟨r1, h1, hst, hres, hturn, hteq⟩ :=
        turnStep_done_event cfg s t i req r hdone herr hallow
          (by rw [hts]; exact hmem)
      rw [hts] at h1
      simp only at h1
      injection h1 with h1
      subst h1
      exact ⟨hst, hres, by rw [hturn, hteq]⟩
    | cont s1 =>
      have hrun : runTurns cfg (n + 1) s
          = ((runTurns cfg n s1).1, es ++ (runTurns cfg n s1).2) := by
        simp only [runTurns, hts]
      rw [hrun] at hmem ⊢
      simp only at hmem
      rcases List.mem_append.mp hmem with hin | hin
      · obtain ⟨r1, h1, -, -, -, -⟩ :=
          turnStep_done_event cfg s t i req r hdone herr hallow
            (by rw [hts]; exact hin)
        rw [hts] at h1
        simp only at h1
        exact StepOut.noConfusion h1
      · exact ih s1 t i req r hdone herr hallow hin

/-- **C1** (amended): whenever a run's observable events contain a
`callTool` invocation whose arguments carry a truthy `_is_done`, whose
result does not have `isError` set, and which the `onAfterToolCall` hook
does not veto, `Loop.run` returns `status: ok` with that tool's result,
and the run stops at that very turn (no further turns execute).  The
amendment over the claim as stated is the hook proviso: a `disallow`
return from `onAfterToolCall` replaces the result with a synthetic
errored one before the `_is_done` check, see `claim1_counterexample`. -/
theorem claim1_done_signal (cfg : Config) (t i : Nat) (req : ToolRequest)
    (r : ToolResult)
    (hdone : Json.truthyOpt (Json.objLookup req.arguments "_is_done") = true)
    (herr : r.isError = false)
    (hallow : cfg.onAfterToolCall t i r = .allow)
    (hmem : Event.invocation t i req (.ok r) ∈ (run cfg).2) :
    (run cfg).1.status = .ok ∧ (run cfg).1.result = some r ∧
      (run cfg).1.turns = t :=
  runTurns_done_event cfg (effMaxTurns cfg) (initState cfg) t i req r
    hdone herr hallow hmem

/-- C1 witness: in the `doneCfg` run the `_is_done` invocation is among
the observable events and the run returns ok with its result at turn 0. -/
theorem claim1_witness :
    (run doneCfg).1.status = .ok ∧
    (run doneCfg).1.result = some { content := [.text "pushed 2"] } ∧
    (run doneCfg).1.turns = 0 :=
  claim1_done_signal doneCfg 0 0
    (mkRequest "push" [("value", .num 2), ("_is_done", .bool true)] "finishing")
    { content := [.text "pushed 2"] }
    rfl rfl rfl
    (by rw [show (run doneCfg).2
          = [Event.completion 0 doneCallMsg { input := 5, output := 7 },
             Event.invocation 0 0
               (mkRequest "push" [("value", .num 2), ("_is_done", .bool true)]
                 "finishing")
               (.ok { content := [.text "pushed 2"] })] from rfl]
        exact List.Mem.tail _ (List.Mem.head _))

/-- **C1 counterexample** to the claim as stated: in `doneDisallowCfg` the
assistant invokes `push` with `_is_done = true`, the invoked tool's result
does not have `isError` set, yet `Loop.run` does not return `status: ok` —
the `onAfterToolCall` veto discards the successful result (and its
`_is_done` signal) and substitutes an errored synthetic result. -/
theorem claim1_counterexample :
    (Event.invocation 0 0
        (mkRequest "push" [("value", .num 2), ("_is_done", .bool true)]
          "finishing")
        (.ok { content := [.text "pushed 2"] }) ∈ (run doneDisallowCfg).2) ∧
    ({ content := [.text "pushed 2"] } : ToolResult).isError = false ∧
    (run doneDisallowCfg).1.status ≠ .ok := by
  refine ⟨?_, rfl, ?_⟩
  · rw [show (run doneDisallowCfg).2
        = [Event.completion 0 doneCallMsg { input := 5, output := 7 },
           Event.invocation 0 0
             (mkRequest "push" [("value", .num 2), ("_is_done", .bool true)]
               "finishing")
             (.ok { content := [.text "pushed 2"] })] from rfl]
    exact List.Mem.tail _ (List.Mem.head _)
  · rw [show (run doneDisallowCfg).1.status = Status.error from rfl]
    intro h
    exact Status.noConfusion h

end Claim1

section Claim6

open Cache

theorem portdiff_refl : ∀ s, PortDiff s s := by
  intro s
  induction s with
  | nil => exact .nil
  | cons c t ih => exact .same c t t ih

theorem portdiff_symm {s t : List Char} (h : PortDiff s t) : PortDiff t s := by
  induction h with
  | nil => exact .nil
  | same c s t _ ih => exact .same c t s ih
  | port d1 d2 r1 r2 hd1 hd2 _ ih => exact .port d2 d1 r2 r1 hd2 hd1 ih

theorem lh_not_digit : ∀ c ∈ lhChars, c.isDigit = false := by decide

theorem portdiff_dropWhile {s t : List Char} (h : PortDiff s t) :
    PortDiff (s.dropWhile Char.isDigit) (t.dropWhile Char.isDigit) := by
  induction h with
  | nil => exact .nil
  | same c s t h ih =>
    by_cases hc : c.isDigit = true
    · rwa [List.dropWhile_cons_of_pos hc, List.dropWhile_cons_of_pos hc]
    · rw [List.dropWhile_cons_of_neg hc, List.dropWhile_cons_of_neg hc]
      exact .same c s t h
  | port d1 d2 r1 r2 hd1 hd2 h ih =>
    have hl : ¬ (('l' : Char).isDigit = true) := by decide
    have e1 : lhChars ++ (d1 ++ r1) = 'l' :: ("ocalhost:".data ++ (d1 ++ r1)) := rfl
    have e2 : lhChars ++ (d2 ++ r2) = 'l' :: ("ocalhost:".data ++ (d2 ++ r2)) := rfl
    rw [e1, e2, List.dropWhile_cons_of_neg hl, List.dropWhile_cons_of_neg hl,
      ← e1, ← e2]
    exact .port d1 d2 r1 r2 hd1 hd2 h

theorem suffix_tail {c : Char} {q : List Char} (h : (c :: q) <:+ lhChars) :
    q <:+ lhChars := by
  obtain ⟨pre, hpre⟩ := h
  exact ⟨pre ++ [c], by simpa using hpre⟩

theorem portdiff_behead {s t : List Char} (h : PortDiff s t) :
    ∀ (p : List Char), p <:+ lhChars → ∀ (d : Char) (u : List Char),
      s = p ++ d :: u → d.isDigit = true →
      ∃ (d' : Char) (u' : List Char), t = p ++ d' :: u' ∧ d'.isDigit = true ∧
        PortDiff ((d :: u).dropWhile Char.isDigit)
          ((d' :: u').dropWhile Char.isDigit) := by
  induction h with
  | nil =>
    intro p _ d u hs _
    exact absurd hs.symm (by simp)
  | same c s t h ih =>
    intro p hp d u hs hd
    cases p with
    | nil =>
      simp only [List.nil_append, List.cons.injEq] at hs
      obtain ⟨rfl, rfl⟩ := hs
      refine ⟨c, t, by simp, hd, ?_⟩
      exact portdiff_dropWhile (.same c s t h)
    | cons q0 q =>
      simp only [List.cons_append, List.cons.injEq] at hs
      obtain ⟨rfl, hs2⟩ := hs
      obtain ⟨d', u', ht, hd', hpd⟩ := ih q (suffix_tail hp) d u hs2 hd
      exact ⟨d', u', by simp [ht], hd', hpd⟩
  | port d1 d2 r1 r2 hd1 hd2 h ih =>
    intro p hp d u hs hd
    have hple : p.length ≤ lhChars.length := hp.length_le
    by_cases hlen : p.length = lhChars.length
    · have hpeq : p = lhChars := hp.eq_of_length hlen
      subst hpeq
      have hcore : d1 ++ r1 = d :: u := List.append_cancel_left hs
      obtain ⟨e, d2t, rfl⟩ : ∃ e d2t, d2 = e :: d2t := by
        cases d2 with
        | nil => exact absurd rfl hd2.1
        | cons e d2t => exact ⟨e, d2t, rfl⟩
      refine ⟨e, d2t ++ r2, by simp, hd2.2 e (by simp), ?_⟩
      have h1 : (d :: u).dropWhile Char.isDigit = r1.dropWhile Char.isDigit := by
        rw [← hcore]
        exact List.dropWhile_append_of_pos hd1.2
      have h2 : (e :: (d2t ++ r2)).dropWhile Char.isDigit
          = r2.dropWhile Char.isDigit := by
        have : e :: (d2t ++ r2) = (e :: d2t) ++ r2 := by simp
        rw [this]
        exact List.dropWhile_append_of_pos hd2.2
      rw [h1, h2]
      exact portdiff_dropWhile h
    · have hplt : p.length < lhChars.length := lt_of_le_of_ne hple hlen
      have hg1 : (p ++ d :: u)[p.length]? = some d := by
        rw [List.getElem?_append_right (Nat.le_refl _)]
        simp
      have hg2 : (lhChars ++ (d1 ++ r1))[p.length]? = lhChars[p.length]? :=
        List.getElem?_append_left hplt
      rw [hs, hg1] at hg2
      have hdm : d ∈ lhChars := List.getElem?_mem hg2.symm
      exact absurd hd (by simp [lh_not_digit d hdm])

theorem normalizeChars_pos {l : List Char} (h : isLhMatch l = true) :
    normalizeChars l
      = portRepl ++ normalizeChars ((l.drop 10).dropWhile Char.isDigit) := by
  rw [normalizeChars]
  rw [dif_pos h]

theorem normalizeChars_nil : normalizeChars [] = [] := by
  rw [normalizeChars, dif_neg (by decide : ¬ isLhMatch ([] : List Char) = true)]

theorem normalizeChars_cons (c : Char) (t : List Char)
    (h : ¬ isLhMatch (c :: t) = true) :
    normalizeChars (c :: t) = c :: normalizeChars t := by
  rw [normalizeChars]
  rw [dif_neg h]

theorem isLhMatch_shape {s : List Char} (h : isLhMatch s = true) :
    ∃ (d : Char) (u : List Char), s = lhChars ++ d :: u ∧ d.isDigit = true := by
  unfold isLhMatch at h
  rw [Bool.and_eq_true] at h
  obtain ⟨h1, h2⟩ := h
  obtain ⟨u', rfl⟩ := List.isPrefixOf_iff_prefix.mp h1
  rw [List.drop_left' (by rfl)] at h2
  cases u' with
  | nil => simp at h2
  | cons d u => exact ⟨d, u, rfl, h2⟩

theorem isLhMatch_of_shape (d : Char) (u : List Char) (hd : d.isDigit = true) :
    isLhMatch (lhChars ++ d :: u) = true := by
  unfold isLhMatch
  rw [Bool.and_eq_true]
  constructor
  · exact List.isPrefixOf_iff_prefix.mpr ⟨d :: u, rfl⟩
  · rw [List.drop_left' (by rfl)]
    exact hd

theorem portdiff_normalize_aux :
    ∀ (n : Nat) (s t : List Char), s.length ≤ n → PortDiff s t →
      normalizeChars s = normalizeChars t := by
  intro n
  induction n with
  | zero =>
    intro s t hlen h
    have hs : s = [] := List.length_eq_zero.mp (Nat.le_zero.mp hlen)
    subst hs
    cases h with
    | nil => rfl
  | succ n ih =>
    intro s t hlen h
    by_cases hm : isLhMatch s = true
    · obtain ⟨d, u, rfl, hd⟩ := isLhMatch_shape hm
      obtain ⟨d', u', rfl, hd', hpd⟩ :=
        portdiff_behead h lhChars (List.suffix_refl _) d u rfl hd
      rw [normalizeChars_pos (isLhMatch_of_shape d u hd),
        normalizeChars_pos (isLhMatch_of_shape d' u' hd'),
        List.drop_left' (by rfl), List.drop_left' (by rfl)]
      congr 1
      apply ih _ _ _ hpd
      have hdw := (List.dropWhile_sublist (l := d :: u) Char.isDigit).length_le
      have he : lhChars.length = 10 := by decide
      simp only [List.length_append, List.length_cons, he] at hlen hdw ⊢
      omega
    · have hmt : ¬ isLhMatch t = true := by
        intro hmt
        obtain ⟨d', u', rfl, hd'⟩ := isLhMatch_shape hmt
        obtain ⟨d, u, hs, hd, -⟩ :=
          portdiff_behead (portdiff_symm h) lhChars (List.suffix_refl _) d' u' rfl hd'
        exact hm (hs ▸ isLhMatch_of_shape d u hd)
      cases h with
      | nil => rfl
      | same c s0 t0 h0 =>
        rw [normalizeChars_cons c s0 hm, normalizeChars_cons c t0 hmt,
          ih s0 t0 (by simp only [List.length_cons] at hlen; omega) h0]
      | port d1 d2 r1 r2 hd1 hd2 h0 =>
        obtain ⟨e, d1t, rfl⟩ : ∃ e d1t, d1 = e :: d1t := by
          cases d1 with
          | nil => exact absurd rfl hd1.1
          | cons e d1t => exact ⟨e, d1t, rfl⟩
        exact absurd
          (by
            have : lhChars ++ ((e :: d1t) ++ r1) = lhChars ++ e :: (d1t ++ r1) := by
              simp
            rw [this]
            exact isLhMatch_of_shape e (d1t ++ r1) (hd1.2 e (by simp)))
          hm

theorem portdiff_normalize {s t : List Char} (h : PortDiff s t) :
    normalizeChars s = normalizeChars t :=
  portdiff_normalize_aux s.length s t (Nat.le_refl _) h

theorem portdiff_append_left (a : List Char) {s t : List Char}
    (h : PortDiff s t) : PortDiff (a ++ s) (a ++ t) := by
  induction a with
  | nil => simpa using h
  | cons c q ih => exact .same c (q ++ s) (q ++ t) ih

/-- C6 (confirmed, spec-modelled): the replay-cache fingerprint is the
SHA-1 digest of the port-normalized serialization, so any two conversations
whose JSON serializations differ only in the digits of `localhost:<digits>`
substrings have identical fingerprints and address the same cache entry. -/
theorem claim6_fingerprint_port_stable (sha1 : String → String)
    (c1 c2 : Lowire.Conversation)
    (h : Cache.PortDiff (Lowire.stringifyConversation c1).data
      (Lowire.stringifyConversation c2).data) :
    Cache.fingerprint sha1 c1 = Cache.fingerprint sha1 c2 := by
  unfold Cache.fingerprint Cache.normalizeLocalhost
  exact congrArg sha1 (congrArg String.mk (portdiff_normalize h))

end Claim6

/-- C6 witness: the port-stability theorem applied to two concrete
conversations differing only in the digits of a `localhost:<digits>`
substring (ports 8907 and 8909), with the digest function instantiated. -/
theorem claim6_witness :
    Cache.fingerprint id Cache.portConv1 = Cache.fingerprint id Cache.portConv2 :=
  claim6_fingerprint_port_stable id Cache.portConv1 Cache.portConv2 (by
    have e1 : (Lowire.stringifyConversation Cache.portConv1).data
        = Cache.portPre ++ (Cache.lhChars ++ ("8907".data ++ Cache.portPost)) := by
      decide
    have e2 : (Lowire.stringifyConversation Cache.portConv2).data
        = Cache.portPre ++ (Cache.lhChars ++ ("8909".data ++ Cache.portPost)) := by
      decide
    rw [e1, e2]
    exact portdiff_append_left Cache.portPre
      (Cache.PortDiff.port "8907".data "8909".data Cache.portPost Cache.portPost
        (by decide) (by decide) (portdiff_refl _)))

section Claim2

/-- C2 (confirmed): at the top of any turn that passes the
budget-exhaustion check, the scheduler computes the input-size estimate
`floor(len(JSON(conversation))/4)`; if a token budget is set and the
estimate is at least the remaining budget, `run` returns
`status error` with exactly `Input token estimate <N> exceeds budget <B>`,
without calling the provider (the run produces no further events). -/
theorem claim2_estimate_guard (cfg : Lowire.Config) (s : Lowire.LoopState)
    (fuel : Nat) (b : Int)
    (hfuel : fuel ≠ 0)
    (hb : s.budgetTokens = some b)
    (hnx : ¬ Lowire.budgetExhausted cfg s = true)
    (hest : b ≤ (Lowire.tokenEstimate (Lowire.convOf cfg s) : Int)) :
    Lowire.runTurns cfg fuel s
      = ({ status := .error
           error := some ("Input token estimate "
             ++ toString (Lowire.tokenEstimate (Lowire.convOf cfg s))
             ++ " exceeds budget " ++ toString b)
           usage := s.totalUsage, turns := s.turns }, []) := by
  obtain ⟨n, rfl⟩ : ∃ n, fuel = n + 1 := ⟨fuel - 1, by omega⟩
  have hexc : Lowire.estimateExceeds (some b)
      (Lowire.tokenEstimate (Lowire.convOf cfg s)) = true := by
    simpa [Lowire.estimateExceeds] using hest
  simp only [Lowire.runTurns, Lowire.turnStep, if_neg hnx, hb, hexc, if_true,
    optIntToString]

end Claim2

set_option maxRecDepth 10000 in
/-- C2 witness: the estimate guard applied to a concrete configuration with
`maxTokens = 1` (estimate 170), producing the exact error at turn 0 with no
events. -/
theorem claim2_witness :
    Lowire.run Lowire.estimateCfg
      = ({ status := .error
           error := some "Input token estimate 170 exceeds budget 1"
           usage := { input := 0, output := 0 }, turns := 0 }, []) := by
  have h := claim2_estimate_guard Lowire.estimateCfg
    (Lowire.initState Lowire.estimateCfg) 100 1 (by decide) rfl (by decide) (by decide)
  rw [show Lowire.run Lowire.estimateCfg
      = Lowire.runTurns Lowire.estimateCfg 100 (Lowire.initState Lowire.estimateCfg)
      from rfl, h]
  rfl

section Claim3

open Lowire

theorem anyErrored_toolCall {l : List ContentPart} (h : anyErrored l = true) :
    l.any isToolCall = true := by
  rcases List.any_eq_true.mp h with ⟨p, hp, hpe⟩
  apply List.any_eq_true.mpr
  refine ⟨p, hp, ?_⟩
  cases p with
  | text t => simp at hpe
  | tool_call id name args r => simp [isToolCall]

theorem filter_isEmpty_eq_false_of_any {l : List ContentPart}
    (h : l.any isToolCall = true) :
    (l.filter isToolCall).isEmpty = false := by
  rcases List.any_eq_true.mp h with ⟨p, hp, hpt⟩
  have : p ∈ l.filter isToolCall := List.mem_filter.mpr ⟨hp, hpt⟩
  rcases hne : l.filter isToolCall with _ | ⟨a, b⟩
  · rw [hne] at this
    simp at this
  · rfl

theorem dispatch_any_toolCall (cfg : Config) (t : Nat) (intent : String)
    (u : Usage) :
    ∀ (parts : List ContentPart) (bc : Option Int) (idx : Nat),
      ((dispatch cfg t intent u bc idx parts).1).any isToolCall
        = parts.any isToolCall := by
  intro parts
  induction parts with
  | nil => intro bc idx; rfl
  | cons hd rest ih =>
    intro bc idx
    cases hd with
    | text s =>
      simp only [dispatch]
      rcases hrec : dispatch cfg t intent u bc idx rest with ⟨ps, o, es⟩
      have hih := ih bc idx
      rw [hrec] at hih
      simp only at hih
      simp [isToolCall, hih]
    | tool_call id name args res₀ =>
      have hr : (ContentPart.tool_call id name args res₀ :: rest).any isToolCall
          = true := by
        simp [isToolCall]
      rw [hr]
      simp only [dispatch]
      split
      · simp [isToolCall]
      · split
        · rcases hrec : dispatch cfg t intent u (decBudget bc) (idx + 1) rest
            with ⟨ps, o, es⟩
          simp [isToolCall]
        · split
          · split
            · rcases hrec : dispatch cfg t intent u (decBudget bc) (idx + 1) rest
                with ⟨ps, o, es⟩
              simp [isToolCall]
            · split
              · simp [isToolCall]
              · rcases hrec : dispatch cfg t intent u (decBudget bc) (idx + 1) rest
                  with ⟨ps, o, es⟩
                simp [isToolCall]
          · rcases hrec : dispatch cfg t intent u (decBudget bc) (idx + 1) rest
              with ⟨ps, o, es⟩
            simp [isToolCall]

theorem dispatch_all_errors (cfg : Config) (t : Nat) (intent : String)
    (u : Usage)
    (htool : ∀ i req r, cfg.callTool t i req = .ok r → r.isError = true) :
    ∀ (parts : List ContentPart) (idx : Nat),
      ∃ parts2 evs,
        dispatch cfg t intent u none idx parts = (parts2, .completed none, evs) ∧
        anyErrored parts2 = parts.any isToolCall := by
  intro parts
  induction parts with
  | nil => intro idx; exact ⟨[], [], rfl, rfl⟩
  | cons hd rest ih =>
    intro idx
    cases hd with
    | text s =>
      obtain ⟨ps, evs, hrec, hany⟩ := ih idx
      refine ⟨ContentPart.text s :: ps, evs, ?_, ?_⟩
      · simp only [dispatch, hrec]
      · simp only [anyErrored, List.any_cons] at hany ⊢
        simpa [isToolCall] using hany
    | tool_call id name args res₀ =>
      obtain ⟨ps, evs, hrec, hany⟩ := ih (idx + 1)
      have hrhs : (ContentPart.tool_call id name args res₀ :: rest).any isToolCall
          = true := by
        simp [isToolCall]
      cases hbh : cfg.onBeforeToolCall t idx with
      | disallow =>
        refine ⟨ContentPart.tool_call id name args (some disallowedCallResult) :: ps,
          evs, ?_, ?_⟩
        · simp only [dispatch, toolBudgetSpent, decBudget, hbh, hrec, Bool.false_eq_true, if_false]
        · rw [hrhs]
          simp [anyErrored, disallowedCallResult]
      | allow =>
        cases hct : cfg.callTool t idx (mkRequest name args intent) with
        | ok result =>
          have hres : result.isError = true := htool idx _ result hct
          cases hah : cfg.onAfterToolCall t idx result with
          | disallow =>
            refine ⟨ContentPart.tool_call id name args (some disallowedReportResult) :: ps,
              Event.invocation t idx (mkRequest name args intent) (.ok result) :: evs,
              ?_, ?_⟩
            · simp only [dispatch, toolBudgetSpent, decBudget, hbh, hct, hah, hrec, Bool.false_eq_true, if_false]
            · rw [hrhs]
              simp [anyErrored, disallowedReportResult]
          | allow =>
            refine ⟨ContentPart.tool_call id name args (some result) :: ps,
              Event.invocation t idx (mkRequest name args intent) (.ok result) :: evs,
              ?_, ?_⟩
            · simp only [dispatch, toolBudgetSpent, decBudget, hbh, hct, hah, hrec,
                hres, Bool.not_true, Bool.and_false, Bool.false_eq_true, if_false]
            · rw [hrhs]
              simp [anyErrored, hres]
        | error msg =>
          refine ⟨ContentPart.tool_call id name args (some (thrownResult name msg)) :: ps,
            Event.invocation t idx (mkRequest name args intent) (.error msg) :: evs,
            ?_, ?_⟩
          · simp only [dispatch, toolBudgetSpent, decBudget, hbh, hct, hrec, Bool.false_eq_true, if_false]
          · rw [hrhs]
            simp [anyErrored, thrownResult]

theorem turnStep_retry (cfg : Config) (s : LoopState)
    (hprov : ∀ t, (cfg.provider t).1.stopReason.code = .ok ∧
      (cfg.provider t).1.content.any isToolCall = true)
    (htool : ∀ t i req r, cfg.callTool t i req = .ok r → r.isError = true)
    (hbt : s.budgetTokens = none) (hbc : s.budgetToolCalls = none)
    (k : Int) (hr : s.budgetRetries = some k) :
    (k - 1 < 0 → ∃ es, turnStep cfg s =
      (.ret { status := .error
              error := some ("Failed to perform action after "
                ++ optNatToString cfg.maxToolCallRetries ++ " tool call retries")
              usage := { input := s.totalUsage.input + (cfg.provider s.turns).2.input
                         output := s.totalUsage.output + (cfg.provider s.turns).2.output }
              turns := s.turns }, es)) ∧
    (¬ (k - 1 < 0) → ∃ s1 es, turnStep cfg s = (.cont s1, es) ∧
      s1.budgetRetries = some (k - 1) ∧ s1.budgetTokens = none ∧
      s1.budgetToolCalls = none ∧ s1.turns = s.turns + 1) := by
  obtain ⟨hok, hany⟩ := hprov s.turns
  rcases hp : cfg.provider s.turns with ⟨am, usage⟩
  rw [hp] at hok hany
  simp only at hok hany
  have hbe : budgetExhausted cfg s = false := by
    simp [budgetExhausted, hbt]
  have hee : estimateExceeds none (tokenEstimate (convOf cfg s)) = false := rfl
  have hemp : (am.content.filter isToolCall).isEmpty = false :=
    filter_isEmpty_eq_false_of_any hany
  obtain ⟨parts2, evs, hd, hae⟩ := dispatch_all_errors cfg s.turns
    (intentOf am.content)
    { input := s.totalUsage.input + usage.input
      output := s.totalUsage.output + usage.output }
    (htool s.turns) am.content 0
  have haet : anyErrored parts2 = true := hae.trans hany
  constructor
  · intro hneg
    refine ⟨Event.completion s.turns am usage :: evs, ?_⟩
    simp only [turnStep, hbe, Bool.false_eq_true, if_false, hbt, hee, hp, hok, hemp,
      hbc, hd, haet, if_true, hr, hneg]
  · intro hpos
    have hstep : turnStep cfg s =
        (.cont { turns := s.turns + 1
                 messages := s.messages ++ [.assistant
                   { content := parts2, stopReason := am.stopReason
                     toolError := am.toolError }]
                 budgetTokens := none
                 budgetToolCalls := none
                 budgetRetries := some (k - 1)
                 totalUsage := { input := s.totalUsage.input + usage.input
                                 output := s.totalUsage.output + usage.output } },
          Event.completion s.turns am usage :: evs) := by
      simp only [turnStep, hbe, Bool.false_eq_true, if_false, hbt, hee, hp, hok, hemp,
        hbc, hd, haet, if_true, hr, hpos, Option.map_none']
    exact ⟨_, _, hstep, rfl, rfl, rfl, rfl⟩

theorem runTurns_retry (cfg : Config)
    (hprov : ∀ t, (cfg.provider t).1.stopReason.code = .ok ∧
      (cfg.provider t).1.content.any isToolCall = true)
    (htool : ∀ t i req r, cfg.callTool t i req = .ok r → r.isError = true) :
    ∀ (k : Nat) (fuel : Nat) (s : LoopState),
      s.budgetTokens = none → s.budgetToolCalls = none →
      s.budgetRetries = some (k : Int) → k < fuel →
      (runTurns cfg fuel s).1.status = .error ∧
      (runTurns cfg fuel s).1.error = some ("Failed to perform action after "
        ++ optNatToString cfg.maxToolCallRetries ++ " tool call retries") ∧
      (runTurns cfg fuel s).1.turns = s.turns + k := by
  intro k
  induction k with
  | zero =>
    intro fuel s hbt hbc hr hfuel
    obtain ⟨n, rfl⟩ : ∃ n, fuel = n + 1 := ⟨fuel - 1, by omega⟩
    obtain ⟨es, hstep⟩ :=
      (turnStep_retry cfg s hprov htool hbt hbc 0 hr).1 (by omega)
    have hrun : (runTurns cfg (n + 1) s).1
        = { status := .error
            error := some ("Failed to perform action after "
              ++ optNatToString cfg.maxToolCallRetries ++ " tool call retries")
            usage := { input := s.totalUsage.input + (cfg.provider s.turns).2.input
                       output := s.totalUsage.output + (cfg.provider s.turns).2.output }
            turns := s.turns } := by
      simp only [runTurns, hstep]
    rw [hrun]
    exact ⟨rfl, rfl, by simp⟩
  | succ k ih =>
    intro fuel s hbt hbc hr hfuel
    obtain ⟨n, rfl⟩ : ∃ n, fuel = n + 1 := ⟨fuel - 1, by omega⟩
    obtain ⟨s1, es, hstep, hr1, hbt1, hbc1, ht1⟩ :=
      (turnStep_retry cfg s hprov htool hbt hbc ((k : Int) + 1)
        (by simp [hr])).2 (by omega)
    have hr1n : s1.budgetRetries = some (k : Int) := by
      rw [hr1]
      congr 1
      omega
    obtain ⟨ha, hb, hc⟩ := ih n s1 hbt1 hbc1 hr1n (by omega)
    have hrun : (runTurns cfg (n + 1) s).1 = (runTurns cfg n s1).1 := by
      simp only [runTurns, hstep]
    rw [hrun]
    refine ⟨ha, hb, ?_⟩
    omega

theorem any_of_filter_isEmpty_false {l : List ContentPart}
    (h : (l.filter isToolCall).isEmpty = false) : l.any isToolCall = true := by
  rcases hne : l.filter isToolCall with _ | ⟨a, b⟩
  · rw [hne] at h
    simp at h
  · have ha : a ∈ l.filter isToolCall := by
      rw [hne]
      simp
    rcases List.mem_filter.mp ha with ⟨hmem, hp⟩
    exact List.any_eq_true.mpr ⟨a, hmem, hp⟩

theorem turnStep_cont_retries (cfg : Config) (s s1 : LoopState) (es : List Event)
    (h : turnStep cfg s = (.cont s1, es)) :
    ∃ m : AssistantMessage, s1.messages.getLast? = some (.assistant m) ∧
      (if (m.content.filter isToolCall).isEmpty then
        s1.budgetRetries = s.budgetRetries
       else if anyErrored m.content then
        s1.budgetRetries = s.budgetRetries.map (fun k => k - 1)
       else s1.budgetRetries = cfg.maxToolCallRetries.map Int.ofNat) := by
  rcases hp : cfg.provider s.turns with ⟨am, usage⟩
  simp only [turnStep, hp] at h
  split at h
  · simp at h
  · split at h
    · simp at h
    · split at h
      · simp at h
      · simp at h
      · split at h
        · rename_i hempty
          injection h with h1 h2
          injection h1 with h1
          subst h1
          refine ⟨{ am with toolError := some emptyToolCallsHint },
            List.getLast?_concat _, ?_⟩
          rw [if_pos hempty]
        · rename_i hempty
          rcases hd : dispatch cfg s.turns (intentOf am.content)
              { input := s.totalUsage.input + usage.input
                output := s.totalUsage.output + usage.output }
              s.budgetToolCalls 0 am.content with ⟨parts2, o, devs⟩
          rw [hd] at h
          cases o with
          | early r => simp at h
          | completed bc1 =>
            simp only at h
            have hpany : parts2.any isToolCall = am.content.any isToolCall := by
              have := dispatch_any_toolCall cfg s.turns (intentOf am.content)
                { input := s.totalUsage.input + usage.input
                  output := s.totalUsage.output + usage.output }
                am.content s.budgetToolCalls 0
              rw [hd] at this
              exact this
            have hfempty : (parts2.filter isToolCall).isEmpty = false := by
              apply filter_isEmpty_eq_false_of_any
              rw [hpany]
              apply any_of_filter_isEmpty_false
              simpa using hempty
            split at h
            · rename_i herr
              rcases hr : s.budgetRetries with _ | k
              · rw [hr] at h
                simp only at h
                injection h with h1 h2
                injection h1 with h1
                subst h1
                refine ⟨{ am with content := parts2 }, List.getLast?_concat _, ?_⟩
                rw [if_neg (by simp [hfempty]), if_pos herr]
                rfl
              · rw [hr] at h
                simp only at h
                split at h
                · simp at h
                · injection h with h1 h2
                  injection h1 with h1
                  subst h1
                  refine ⟨{ am with content := parts2 }, List.getLast?_concat _, ?_⟩
                  rw [if_neg (by simp [hfempty]), if_pos herr]
                  rfl
            · rename_i herr
              injection h with h1 h2
              injection h1 with h1
              subst h1
              refine ⟨{ am with content := parts2 }, List.getLast?_concat _, ?_⟩
              rw [if_neg (by simp [hfempty]), if_neg herr]

/-- C3 (confirmed): the retry counter semantics of `Loop.run`: (a) with
`maxToolCallRetries = R` and a tool that always produces errored results
(while every assistant message carries at least one tool call), the run
fails with exactly `Failed to perform action after <R> tool call retries`
after `R + 1` consecutive errored turns, at turn index `R`; and (b) on any
turn that continues, the counter is left unchanged by a turn without tool
calls, decremented by one by a turn containing an errored tool result, and
reset to `maxToolCallRetries` by a turn whose tool results are all
non-error. -/
theorem claim3_tool_call_retries :
    (∀ (cfg : Config) (R : Nat),
      (∀ t, (cfg.provider t).1.stopReason.code = .ok ∧
        (cfg.provider t).1.content.any isToolCall = true) →
      (∀ t i req r, cfg.callTool t i req = .ok r → r.isError = true) →
      cfg.maxTokens = none → cfg.maxToolCalls = none →
      cfg.maxToolCallRetries = some R →
      R < effMaxTurns cfg →
      ((run cfg).1.status = .error ∧
       (run cfg).1.error = some ("Failed to perform action after "
         ++ toString R ++ " tool call retries") ∧
       (run cfg).1.turns = R)) ∧
    (∀ (cfg : Config) (s s1 : LoopState) (es : List Event),
      turnStep cfg s = (.cont s1, es) →
      ∃ m : AssistantMessage, s1.messages.getLast? = some (.assistant m) ∧
        (if (m.content.filter isToolCall).isEmpty then
          s1.budgetRetries = s.budgetRetries
         else if anyErrored m.content then
          s1.budgetRetries = s.budgetRetries.map (fun k => k - 1)
         else s1.budgetRetries = cfg.maxToolCallRetries.map Int.ofNat)) := by
  constructor
  · intro cfg R hprov htool hmt hmc hret hR
    have h := runTurns_retry cfg hprov htool R (effMaxTurns cfg) (initState cfg)
      (by simp [initState, hmt]) (by simp [initState, hmc])
      (by simp [initState, hret]) hR
    have hrw : run cfg = runTurns cfg (effMaxTurns cfg) (initState cfg) := rfl
    rw [hrw]
    obtain ⟨ha, hb, hc⟩ := h
    refine ⟨ha, ?_, ?_⟩
    · rw [hb, hret]
      rfl
    · rw [hc]
      simp [initState]
  · exact turnStep_cont_retries

/-- C3 witness: the retry semantics applied to a concrete configuration
with `maxToolCallRetries = 2` and an always-failing `push` tool (the run
errors at turn 2 with the exact message), and to the first concrete turn of
the same run (whose errored results decrement the counter from 2 to 1). -/
theorem claim3_witness :
    ((run retryCfg).1.status = .error ∧
     (run retryCfg).1.error = some "Failed to perform action after 2 tool call retries" ∧
     (run retryCfg).1.turns = 2) ∧
    (stepContOf (turnStep retryCfg (initState retryCfg))
      (initState retryCfg)).budgetRetries = some 1 := by
  constructor
  · exact claim3_tool_call_retries.1 retryCfg 2
      (fun t => ⟨rfl, rfl⟩)
      (by
        intro t i req r h
        injection h with h2
        rw [← h2]
        rfl)
      rfl rfl rfl (by decide)
  · obtain ⟨m, hlast, hif⟩ := claim3_tool_call_retries.2 retryCfg
      (initState retryCfg)
      (stepContOf (turnStep retryCfg (initState retryCfg)) (initState retryCfg))
      ((turnStep retryCfg (initState retryCfg)).2) rfl
    have hm : m = erroredPushMsg := by
      rw [show (stepContOf (turnStep retryCfg (initState retryCfg))
          (initState retryCfg)).messages.getLast?
          = some (Message.assistant erroredPushMsg) from rfl] at hlast
      injection hlast with h1
      injection h1 with h2
      exact h2.symm
    subst hm
    rw [if_neg (by decide), if_pos (by decide)] at hif
    rw [hif]
    rfl

end Claim3

section Claim10

open Lowire

theorem dispatch_all_disallowed (cfg : Config) (t : Nat) (intent : String)
    (u : Usage)
    (hhook : ∀ i, cfg.onBeforeToolCall t i = .disallow) :
    ∀ (parts : List ContentPart) (idx : Nat),
      ∃ parts2,
        dispatch cfg t intent u none idx parts = (parts2, .completed none, []) ∧
        anyErrored parts2 = parts.any isToolCall := by
  intro parts
  induction parts with
  | nil => intro idx; exact ⟨[], rfl, rfl⟩
  | cons hd rest ih =>
    intro idx
    cases hd with
    | text s =>
      obtain ⟨ps, hrec, hany⟩ := ih idx
      refine ⟨ContentPart.text s :: ps, ?_, ?_⟩
      · simp only [dispatch, hrec]
      · simp only [anyErrored, List.any_cons] at hany ⊢
        simpa [isToolCall] using hany
    | tool_call id name args res₀ =>
      obtain ⟨ps, hrec, hany⟩ := ih (idx + 1)
      refine ⟨ContentPart.tool_call id name args (some disallowedCallResult) :: ps,
        ?_, ?_⟩
      · simp only [dispatch, toolBudgetSpent, decBudget, hhook idx, hrec,
          Bool.false_eq_true, if_false]
      · simp [anyErrored, disallowedCallResult, isToolCall]

theorem turnStep_disallow (cfg : Config) (s : LoopState)
    (hprov : ∀ t, (cfg.provider t).1.stopReason.code = .ok ∧
      (cfg.provider t).1.content.any isToolCall = true)
    (hhook : ∀ t i, cfg.onBeforeToolCall t i = .disallow)
    (hbt : s.budgetTokens = none) (hbc : s.budgetToolCalls = none)
    (k : Int) (hr : s.budgetRetries = some k) :
    (k - 1 < 0 → turnStep cfg s =
      (.ret { status := .error
              error := some ("Failed to perform action after "
                ++ optNatToString cfg.maxToolCallRetries ++ " tool call retries")
              usage := { input := s.totalUsage.input + (cfg.provider s.turns).2.input
                         output := s.totalUsage.output + (cfg.provider s.turns).2.output }
              turns := s.turns },
       [Event.completion s.turns (cfg.provider s.turns).1 (cfg.provider s.turns).2])) ∧
    (¬ (k - 1 < 0) → ∃ s1, turnStep cfg s =
      (.cont s1, [Event.completion s.turns (cfg.provider s.turns).1 (cfg.provider s.turns).2]) ∧
      s1.budgetRetries = some (k - 1) ∧ s1.budgetTokens = none ∧
      s1.budgetToolCalls = none ∧ s1.turns = s.turns + 1) := by
  obtain ⟨hok, hany⟩ := hprov s.turns
  rcases hp : cfg.provider s.turns with ⟨am, usage⟩
  rw [hp] at hok hany
  simp only at hok hany
  have hbe : budgetExhausted cfg s = false := by
    simp [budgetExhausted, hbt]
  have hee : estimateExceeds none (tokenEstimate (convOf cfg s)) = false := rfl
  have hemp : (am.content.filter isToolCall).isEmpty = false :=
    filter_isEmpty_eq_false_of_any hany
  obtain ⟨parts2, hd, hae⟩ := dispatch_all_disallowed cfg s.turns
    (intentOf am.content)
    { input := s.totalUsage.input + usage.input
      output := s.totalUsage.output + usage.output }
    (hhook s.turns) am.content 0
  have haet : anyErrored parts2 = true := hae.trans hany
  constructor
  · intro hneg
    simp only [turnStep, hbe, Bool.false_eq_true, if_false, hbt, hee, hp, hok,
      hemp, hbc, hd, haet, if_true, hr, hneg]
  · intro hpos
    have hstep : turnStep cfg s =
        (.cont { turns := s.turns + 1
                 messages := s.messages ++ [.assistant
                   { content := parts2, stopReason := am.stopReason
                     toolError := am.toolError }]
                 budgetTokens := none
                 budgetToolCalls := none
                 budgetRetries := some (k - 1)
                 totalUsage := { input := s.totalUsage.input + usage.input
                                 output := s.totalUsage.output + usage.output } },
          [Event.completion s.turns am usage]) := by
      simp only [turnStep, hbe, Bool.false_eq_true, if_false, hbt, hee, hp, hok,
        hemp, hbc, hd, haet, if_true, hr, hpos, Option.map_none']
    exact ⟨_, hstep, rfl, rfl, rfl, rfl⟩

theorem runTurns_disallow (cfg : Config)
    (hprov : ∀ t, (cfg.provider t).1.stopReason.code = .ok ∧
      (cfg.provider t).1.content.any isToolCall = true)
    (hhook : ∀ t i, cfg.onBeforeToolCall t i = .disallow) :
    ∀ (k : Nat) (fuel : Nat) (s : LoopState),
      s.budgetTokens = none → s.budgetToolCalls = none →
      s.budgetRetries = some (k : Int) → k < fuel →
      (runTurns cfg fuel s).1.status = .error ∧
      (runTurns cfg fuel s).1.error = some ("Failed to perform action after "
        ++ optNatToString cfg.maxToolCallRetries ++ " tool call retries") ∧
      (runTurns cfg fuel s).1.turns = s.turns + k ∧
      ∀ e ∈ (runTurns cfg fuel s).2, e.isInvocation = false := by
  intro k
  induction k with
  | zero =>
    intro fuel s hbt hbc hr hfuel
    obtain ⟨n, rfl⟩ : ∃ n, fuel = n + 1 := ⟨fuel - 1, by omega⟩
    have hstep :=
      (turnStep_disallow cfg s hprov hhook hbt hbc 0 hr).1 (by omega)
    have hrun : runTurns cfg (n + 1) s
        = ({ status := .error
             error := some ("Failed to perform action after "
               ++ optNatToString cfg.maxToolCallRetries ++ " tool call retries")
             usage := { input := s.totalUsage.input + (cfg.provider s.turns).2.input
                        output := s.totalUsage.output + (cfg.provider s.turns).2.output }
             turns := s.turns },
           [Event.completion s.turns (cfg.provider s.turns).1 (cfg.provider s.turns).2]) := by
      simp only [runTurns, hstep]
    rw [hrun]
    refine ⟨rfl, rfl, by simp, ?_⟩
    intro e he
    rcases List.mem_singleton.mp he with rfl
    rfl
  | succ k ih =>
    intro fuel s hbt hbc hr hfuel
    obtain ⟨n, rfl⟩ : ∃ n, fuel = n + 1 := ⟨fuel - 1, by omega⟩
    obtain ⟨s1, hstep, hr1, hbt1, hbc1, ht1⟩ :=
      (turnStep_disallow cfg s hprov hhook hbt hbc ((k : Int) + 1)
        (by simp [hr])).2 (by omega)
    have hr1n : s1.budgetRetries = some (k : Int) := by
      rw [hr1]
      congr 1
      omega
    obtain ⟨ha, hb, hc, he⟩ := ih n s1 hbt1 hbc1 hr1n (by omega)
    have hrun1 : (runTurns cfg (n + 1) s).1 = (runTurns cfg n s1).1 := by
      simp only [runTurns, hstep]
    have hrun2 : (runTurns cfg (n + 1) s).2
        = Event.completion s.turns (cfg.provider s.turns).1 (cfg.provider s.turns).2
          :: (runTurns cfg n s1).2 := by
      simp only [runTurns, hstep]
      rfl
    refine ⟨hrun1 ▸ ha, hrun1 ▸ hb, ?_, ?_⟩
    · rw [hrun1]
      omega
    · rw [hrun2]
      intro e hme
      rcases List.mem_cons.mp hme with rfl | hme2
      · rfl
      · exact he e hme2

/-- C10 (confirmed): when `onBeforeToolCall` vetoes every call, each vetoed
call receives a synthetic `isError` result, every such turn counts as an
errored turn for retry accounting, and with `maxToolCallRetries = R` the
run fails with the retry error after `R + 1` consecutive vetoed turns at
turn index `R` — although no tool was ever invoked (the run's events
contain no invocation). -/
theorem claim10_disallow_counts_as_error :
    ∀ (cfg : Config) (R : Nat),
      (∀ t, (cfg.provider t).1.stopReason.code = .ok ∧
        (cfg.provider t).1.content.any isToolCall = true) →
      (∀ t i, cfg.onBeforeToolCall t i = .disallow) →
      cfg.maxTokens = none → cfg.maxToolCalls = none →
      cfg.maxToolCallRetries = some R →
      R < effMaxTurns cfg →
      ((run cfg).1.status = .error ∧
       (run cfg).1.error = some ("Failed to perform action after "
         ++ toString R ++ " tool call retries") ∧
       (run cfg).1.turns = R ∧
       ∀ e ∈ (run cfg).2, e.isInvocation = false) := by
  intro cfg R hprov hhook hmt hmc hret hR
  have h := runTurns_disallow cfg hprov hhook R (effMaxTurns cfg) (initState cfg)
    (by simp [initState, hmt]) (by simp [initState, hmc])
    (by simp [initState, hret]) hR
  have hrw : run cfg = runTurns cfg (effMaxTurns cfg) (initState cfg) := rfl
  rw [hrw]
  obtain ⟨ha, hb, hc, he⟩ := h
  refine ⟨ha, ?_, ?_, he⟩
  · rw [hb, hret]
    rfl
  · rw [hc]
    simp [initState]

/-- C10 witness: the veto semantics applied to a concrete configuration
with `maxToolCallRetries = 2` and an all-vetoing hook: the run errors at
turn 2 with the retry message and its event log records no invocation. -/
theorem claim10_witness :
    (run disallowCfg).1.status = .error ∧
    (run disallowCfg).1.error = some "Failed to perform action after 2 tool call retries" ∧
    (run disallowCfg).1.turns = 2 ∧
    ((run disallowCfg).2.all fun e => !e.isInvocation) = true := by
  obtain ⟨ha, hb, hc, he⟩ := claim10_disallow_counts_as_error disallowCfg 2
    (fun t => ⟨rfl, rfl⟩) (fun t i => rfl) rfl rfl rfl (by decide)
  refine ⟨ha, hb, hc, ?_⟩
  apply List.all_eq_true.mpr
  intro e hme
  simp [he e hme]

end Claim10

